import Mathlib

/-!
Shallow embedding of the GoldCleaner category scan-and-clean engine
(src/src-tauri/src/lib.rs) and verification of its specification claims.

The filesystem, the recycle-bin shell capability and the clock are modelled
as explicit environments; directory walks are lists of entries in walk
order; every removal call issued by a cleaning function is recorded in a
trace so that "x was deleted" is observable.  Machine integers (`u64`) are
modelled as `Nat`, with explicit saturation where the source saturates;
`SystemTime` is modelled as `Int` seconds relative to the Unix epoch, with
a lower bound `min_instant` standing for the earliest representable
instant of the platform.
-/

namespace GoldCleaner

instance {ε α : Type} [DecidableEq ε] [DecidableEq α] : DecidableEq (Except ε α) := fun a b =>
  match a, b with
  | .error e1, .error e2 =>
    if h : e1 = e2 then .isTrue (by rw [h]) else .isFalse (by intro hc; cases hc; exact h rfl)
  | .ok v1, .ok v2 =>
    if h : v1 = v2 then .isTrue (by rw [h]) else .isFalse (by intro hc; cases hc; exact h rfl)
  | .error _, .ok _ => .isFalse (by intro hc; cases hc)
  | .ok _, .error _ => .isFalse (by intro hc; cases hc)

/-- Key normalisation of `normalize_path_str`: every `/` becomes `\` and the
result is lowercased (`path.replace('/', "\\").to_lowercase()`), done here in
one character-wise pass (ASCII lowering; `/` and `\` are unaffected by
lowercasing, so the two-step source computation agrees char by char). -/
def normalize_path_str (path : String) : String :=
  ⟨path.data.map (fun c => if c = '/' then '\\' else c.toLower)⟩

/-- `trim_end_matches('\\')`: drop every trailing backslash. -/
def trimEndBackslashes (s : String) : String :=
  ⟨(s.data.reverse.dropWhile (fun c => c = '\\')).reverse⟩

/-- `ends_with('\\')` for the single-character separator. -/
def endsWithSep (s : String) : Bool :=
  decide (s.data.getLast? = some '\\')

/-- `starts_with(prefix_string)` as a character-list prefix test. -/
def strStartsWith (s pre : String) : Bool :=
  List.isPrefixOf pre.data s.data

/-- `fs::Metadata`: directory flag, byte length, last-modified time
(`None` when the platform cannot report a modification time). -/
structure Metadata where
  isDir : Bool
  len : Nat
  modified : Option Int
deriving Repr, DecidableEq

/-- One entry yielded by `WalkDir` (in walk order): its path, the
`file_type()` flags, and the result of `entry.metadata()`. -/
structure FsEntry where
  path : String
  isFileType : Bool
  isDirType : Bool
  metadata : Except String Metadata
deriving Repr, DecidableEq

/-- The filesystem environment: the read operations used by the engine and
the outcome of each removal call (`none` = success, `some msg` = the error
message the call would report).  All operations are pure snapshots, which
matches the single-threaded, no-internal-parallelism execution model. -/
structure Fs where
  path_exists : String → Bool
  is_file : String → Bool
  stat : String → Except String Metadata
  walk : String → List FsEntry
  remove_file : String → Option String
  remove_dir_all : String → Option String
  remove_dir : String → Option String

/-- Which removal primitive a recorded call used. -/
inductive RemoveKind where
  | file
  | dirAll
  | dir
deriving Repr, DecidableEq

/-- A removal call issued during a clean, with its outcome. -/
structure RemoveCall where
  kind : RemoveKind
  path : String
  result : Option String
deriving Repr, DecidableEq

structure CleanupError where
  path : String
  message : String
deriving Repr, DecidableEq

structure CleanupResult where
  deleted_bytes : Nat
  deleted_count : Nat
  failed : List CleanupError
deriving Repr, DecidableEq

structure CategoryStats where
  size_bytes : Nat
  file_count : Nat
deriving Repr, DecidableEq

structure CleanRequest where
  ids : List String
  excluded_paths : List (String × List String)
  included_paths : List (String × List String)
  category_stats : List (String × CategoryStats)

inductive CategoryKind where
  | standard
  | downloadsOlderThan (days : Nat)
deriving Repr, DecidableEq

structure CategoryDef where
  id : String
  title : String
  description : String
  kind : CategoryKind
  roots : List String
  cleanup_dirs : Bool
deriving Repr, DecidableEq

/-- The clock environment: `SystemTime::now()` and the earliest instant the
platform's `SystemTime` can represent (`checked_sub` underflows below it). -/
structure Clock where
  now : Int
  min_instant : Int
deriving Repr, DecidableEq

def U64MAX : Nat := 2 ^ 64 - 1

/-- `u64::saturating_add`. -/
def satAdd64 (a b : Nat) : Nat := min (a + b) U64MAX

/-- `u64::saturating_mul`. -/
def satMul64 (a b : Nat) : Nat := min (a * b) U64MAX

/-- `SystemTime::checked_sub`: `none` when the result would precede the
earliest representable instant. -/
def checkedSub (c : Clock) (secs : Nat) : Option Int :=
  if c.now - (secs : Int) < c.min_instant then none else some (c.now - (secs : Int))

/-- `cutoff_time`: no cutoff for standard categories; for
`DownloadsOlderThan { days }`, now minus `days.saturating_mul(86_400)`
seconds, falling back to the Unix epoch (modelled as `0`) when the
subtraction underflows (`.or(Some(SystemTime::UNIX_EPOCH))`). -/
def cutoff_time (c : Clock) : CategoryKind → Option Int
  | .standard => none
  | .downloadsOlderThan days =>
    match checkedSub c (satMul64 days 86400) with
    | some t => some t
    | none => some 0

/-- `matches_cutoff`: with a cutoff, true iff the modified time is known and
strictly earlier than the cutoff; with no cutoff, always true. -/
def matches_cutoff (meta : Metadata) : Option Int → Bool
  | some cutoff =>
    match meta.modified with
    | some m => decide (m < cutoff)
    | none => false
  | none => true

/-- `path_eq_ignore_case`. -/
def path_eq_ignore_case (a b : String) : Bool :=
  normalize_path_str a == normalize_path_str b

/-- `is_within_root` (the ad-hoc cleaner's guard): for a file root, key
equality; for a directory root, equality with the separator-trimmed root or
a root-plus-separator whole-component match. -/
def is_within_root (fs : Fs) (root target0 : String) : Bool :=
  let rootNorm := normalize_path_str root
  let target := normalize_path_str target0
  if fs.is_file root then target == rootNorm
  else
    let pfx := if endsWithSep rootNorm then rootNorm else rootNorm ++ "\\"
    target == trimEndBackslashes pfx || strStartsWith target pfx

/-- `is_within_roots` (the category cleaners' guard): the target is the root
itself or below one of the category's roots. -/
def is_within_roots (fs : Fs) (d : CategoryDef) (target0 : String) : Bool :=
  let target := normalize_path_str target0
  d.roots.any fun root =>
    let rootNorm := normalize_path_str root
    if fs.is_file root then target == rootNorm
    else
      let pfx := if endsWithSep rootNorm then rootNorm else rootNorm ++ "\\"
      target == rootNorm || strStartsWith target pfx

/-- `normalize_exclusions`: the exclusion set, as the list of normalised
keys (membership is what matters downstream). -/
def normalize_exclusions (exclusions : List String) : List String :=
  exclusions.map normalize_path_str

/-- Accumulator threaded through the deletion loops: the running counters,
the failure list, and the trace of removal calls issued so far. -/
structure CleanAcc where
  deleted_bytes : Nat
  deleted_count : Nat
  failed : List CleanupError
  calls : List RemoveCall
deriving Repr, DecidableEq

def CleanAcc.init : CleanAcc := ⟨0, 0, [], []⟩

/-- `delete_file`: skip excluded keys, record a failure when `metadata`
fails, skip files missing the cutoff, then remove and account. -/
def delete_file (fs : Fs) (path : String) (cutoff : Option Int)
    (excluded : List String) (acc : CleanAcc) : CleanAcc :=
  let normalized := normalize_path_str path
  if excluded.contains normalized then acc
  else
    match fs.stat path with
    | .error err => { acc with failed := acc.failed ++ [⟨path, err⟩] }
    | .ok meta =>
      if ! matches_cutoff meta cutoff then acc
      else
        let size := meta.len
        match fs.remove_file path with
        | some err =>
          { acc with failed := acc.failed ++ [⟨path, err⟩],
                     calls := acc.calls ++ [⟨.file, path, some err⟩] }
        | none =>
          { acc with deleted_bytes := acc.deleted_bytes + size,
                     deleted_count := acc.deleted_count + 1,
                     calls := acc.calls ++ [⟨.file, path, none⟩] }

/-- A single matched file as reported by the listing surface. -/
structure CleanupItem where
  path : String
  size_bytes : Nat
  modified_ms : Option Int
deriving Repr, DecidableEq

/-- `to_item`: a listing row; `modified_ms` is `None` when the time is
unknown or precedes the epoch (`duration_since(UNIX_EPOCH)` fails). -/
def to_item (path : String) (meta : Metadata) : CleanupItem :=
  ⟨path, meta.len, meta.modified.bind (fun t => if t < 0 then none else some (t * 1000))⟩

/-- The file-scanning inner loop of `scan_root` over the walk entries of a
directory root: sum of sizes and count of the files passing the cutoff. -/
def scan_entries (entries : List FsEntry) (cutoff : Option Int) : Nat × Nat :=
  entries.foldl
    (fun (st : Nat × Nat) e =>
      if ! e.isFileType then st
      else
        match e.metadata with
        | .ok meta => if matches_cutoff meta cutoff then (st.1 + meta.len, st.2 + 1) else st
        | .error _ => st)
    (0, 0)

/-- `scan_root`: a missing root contributes zero; a file root contributes
itself iff it passes the cutoff; a directory root is walked. -/
def scan_root (fs : Fs) (root : String) (cutoff : Option Int) : Nat × Nat :=
  if ! fs.path_exists root then (0, 0)
  else if fs.is_file root then
    match fs.stat root with
    | .ok meta => if matches_cutoff meta cutoff then (meta.len, 1) else (0, 0)
    | .error _ => (0, 0)
  else scan_entries (fs.walk root) cutoff

/-- `scan_category`: the cutoff is computed once, then every root is
scanned and the totals summed. -/
def scan_category (fs : Fs) (clock : Clock) (d : CategoryDef) : Nat × Nat :=
  let cutoff := cutoff_time clock d.kind
  d.roots.foldl (fun (st : Nat × Nat) root =>
    let r := scan_root fs root cutoff
    (st.1 + r.1, st.2 + r.2)) (0, 0)

/-- The inner loop of `list_category_items_for` over a directory root's walk
entries: before each entry the limit is checked (`has_more` and break when
reached), then matching files are appended. -/
def list_walk_entries (cutoff : Option Int) (limit : Nat) :
    List FsEntry → List CleanupItem → List CleanupItem × Bool
  | [], items => (items, false)
  | e :: rest, items =>
    if limit ≤ items.length then (items, true)
    else if ! e.isFileType then list_walk_entries cutoff limit rest items
    else
      match e.metadata with
      | .ok meta =>
        if matches_cutoff meta cutoff then
          list_walk_entries cutoff limit rest (items ++ [to_item e.path meta])
        else list_walk_entries cutoff limit rest items
      | .error _ => list_walk_entries cutoff limit rest items

/-- The outer loop of `list_category_items_for` over the roots: before each
root the limit is checked; a file root is appended without an extra check
(the root checkpoint already guaranteed room); a directory root runs the
inner loop and ors its early-break flag into `has_more`. -/
def list_roots (fs : Fs) (cutoff : Option Int) (limit : Nat) :
    List String → List CleanupItem → Bool → List CleanupItem × Bool
  | [], items, hasMore => (items, hasMore)
  | root :: rest, items, hasMore =>
    if limit ≤ items.length then (items, true)
    else if ! fs.path_exists root then list_roots fs cutoff limit rest items hasMore
    else if fs.is_file root then
      let items :=
        match fs.stat root with
        | .ok meta => if matches_cutoff meta cutoff then items ++ [to_item root meta] else items
        | .error _ => items
      list_roots fs cutoff limit rest items hasMore
    else
      let r := list_walk_entries cutoff limit (fs.walk root) items
      list_roots fs cutoff limit rest r.1 (hasMore || r.2)

structure CategoryItems where
  items : List CleanupItem
  has_more : Bool
deriving Repr, DecidableEq

/-- `list_category_items_for`. -/
def list_category_items_for (fs : Fs) (clock : Clock) (d : CategoryDef) (limit : Nat) :
    CategoryItems :=
  let cutoff := cutoff_time clock d.kind
  let r := list_roots fs cutoff limit d.roots [] false
  ⟨r.1, r.2⟩

/-- The recycle-bin shell capability: the result of
`SHQueryRecycleBinW` (total bytes, item count) and of `SHEmptyRecycleBinW`,
each queried once per clean. -/
structure RecycleBinEnv where
  query_stats : Except String (Nat × Nat)
  empty_bin : Except String Unit

/-- The stats `clean_recycle_bin_fast` reports: the query result, or zero
on query failure (`unwrap_or`). -/
def recycle_bin_stats_or_zero (rb : RecycleBinEnv) : Nat × Nat :=
  match rb.query_stats with
  | .ok s => s
  | .error _ => (0, 0)

/-- `clean_recycle_bin_fast` (Windows branch): query the bin's stats, then
empty it; an emptying failure becomes a single synthetic per-category
failure with zero totals, never a file walk. -/
def clean_recycle_bin_fast (rb : RecycleBinEnv) : CleanupResult :=
  let stats := recycle_bin_stats_or_zero rb
  match rb.empty_bin with
  | .error err => ⟨0, 0, [⟨"$Recycle.Bin", err⟩]⟩
  | .ok _ => ⟨stats.1, stats.2, []⟩

/-- `should_fast_clear`. -/
def should_fast_clear (d : CategoryDef) : Bool :=
  (d.id == "system_cache" || d.id == "browser_cache") && d.cleanup_dirs

/-- `clean_category_fast_dirs`: remove every existing root wholesale; on
full success report the caller-supplied stats (or zero), on any failure
report zero totals plus the per-root failures. -/
def clean_category_fast_dirs (fs : Fs) (d : CategoryDef) (stats : Option CategoryStats) :
    CleanupResult × List RemoveCall :=
  let st := d.roots.foldl
    (fun (st : (List CleanupError × Bool) × List RemoveCall) root =>
      if ! fs.path_exists root then st
      else if fs.is_file root then
        match fs.remove_file root with
        | some msg => ((st.1.1 ++ [⟨root, msg⟩], false), st.2 ++ [⟨.file, root, some msg⟩])
        | none => (st.1, st.2 ++ [⟨.file, root, none⟩])
      else
        match fs.remove_dir_all root with
        | some msg => ((st.1.1 ++ [⟨root, msg⟩], false), st.2 ++ [⟨.dirAll, root, some msg⟩])
        | none => (st.1, st.2 ++ [⟨.dirAll, root, none⟩]))
    (([], true), [])
  let totals :=
    if st.1.2 then
      match stats with
      | some v => (v.size_bytes, v.file_count)
      | none => (0, 0)
    else (0, 0)
  (⟨totals.1, totals.2, st.1.1⟩, st.2)

/-- Depth measure used to order the empty-directory pass (deepest first).
The source counts `Path::components()`; separators are counted here instead,
an order-equivalent proxy on walked paths — no verified property depends on
the order of this pass, only on its set of targets. -/
def components_count (p : String) : Nat :=
  (p.data.filter (fun c => c = '\\')).length + 1

/-- Stable insertion of `x` into a list sorted descending by
`components_count`. -/
def insertDirDesc (x : String) : List String → List String
  | [] => [x]
  | y :: ys =>
    if components_count y < components_count x then x :: y :: ys
    else y :: insertDirDesc x ys

/-- Sort descending by `components_count` (the source's
`sort_by(|a, b| b.components().count().cmp(&a.components().count()))`). -/
def sortDirsDesc : List String → List String
  | [] => []
  | x :: xs => insertDirDesc x (sortDirsDesc xs)

/-- The empty-directory pass at the end of `clean_category`: the queued
directories, deepest first, each removed with a non-recursive
`fs::remove_dir` whose outcome is discarded (`let _ = ...`). -/
def remove_dirs_pass (fs : Fs) (dirs : List String) (acc : CleanAcc) : CleanAcc :=
  { acc with calls := acc.calls ++ (sortDirsDesc dirs).map (fun dr => ⟨.dir, dr, fs.remove_dir dr⟩) }

/-- The per-root walk-and-delete loop of `clean_category`: missing roots are
skipped, a file root goes through `delete_file`, a directory root's walk
queues directories (when `cleanup_dirs`) and deletes files, then the root
itself is queued. -/
def clean_category_roots (fs : Fs) (cutoff : Option Int) (excluded : List String)
    (cleanupDirs : Bool) : List String → CleanAcc → List String → CleanAcc × List String
  | [], acc, dirs => (acc, dirs)
  | root :: rest, acc, dirs =>
    if ! fs.path_exists root then clean_category_roots fs cutoff excluded cleanupDirs rest acc dirs
    else if fs.is_file root then
      clean_category_roots fs cutoff excluded cleanupDirs rest
        (delete_file fs root cutoff excluded acc) dirs
    else
      let st := (fs.walk root).foldl
        (fun (st : CleanAcc × List String) e =>
          if e.isDirType then (st.1, if cleanupDirs then st.2 ++ [e.path] else st.2)
          else if e.isFileType then (delete_file fs e.path cutoff excluded st.1, st.2)
          else st)
        (acc, dirs)
      let st := if cleanupDirs then (st.1, st.2 ++ [root]) else st
      clean_category_roots fs cutoff excluded cleanupDirs rest st.1 st.2

/-- `clean_category`: the recycle-bin shortcut (no exclusions), the
fast-clear shortcut (no exclusions, flagged category), or walk-and-delete
followed by the empty-directory pass. -/
def clean_category (fs : Fs) (rb : RecycleBinEnv) (clock : Clock) (d : CategoryDef)
    (excluded : List String) (stats : Option CategoryStats) :
    CleanupResult × List RemoveCall :=
  if d.id == "recycle_bin" && excluded.isEmpty then (clean_recycle_bin_fast rb, [])
  else if excluded.isEmpty && should_fast_clear d then clean_category_fast_dirs fs d stats
  else
    let cutoff := cutoff_time clock d.kind
    let st := clean_category_roots fs cutoff excluded d.cleanup_dirs d.roots CleanAcc.init []
    let acc := if d.cleanup_dirs && ! st.2.isEmpty then remove_dirs_pass fs st.2 st.1 else st.1
    (⟨acc.deleted_bytes, acc.deleted_count, acc.failed⟩, acc.calls)

/-- One step of `clean_included_paths` for a single candidate path,
ignoring duplicate suppression: scope check, stat, directory rejection,
silent cutoff skip, then removal with accounting. -/
def included_path_step (fs : Fs) (d : CategoryDef) (cutoff : Option Int)
    (acc : CleanAcc) (pathStr : String) : CleanAcc :=
  if ! is_within_roots fs d pathStr then
    { acc with failed := acc.failed ++ [⟨pathStr, "Path is outside cleanup scope."⟩] }
  else
    match fs.stat pathStr with
    | .error err => { acc with failed := acc.failed ++ [⟨pathStr, err⟩] }
    | .ok meta =>
      if meta.isDir then
        { acc with failed := acc.failed ++ [⟨pathStr, "Path is a directory."⟩] }
      else if ! matches_cutoff meta cutoff then acc
      else
        match fs.remove_file pathStr with
        | some err =>
          { acc with failed := acc.failed ++ [⟨pathStr, err⟩],
                     calls := acc.calls ++ [⟨.file, pathStr, some err⟩] }
        | none =>
          { acc with deleted_bytes := acc.deleted_bytes + meta.len,
                     deleted_count := acc.deleted_count + 1,
                     calls := acc.calls ++ [⟨.file, pathStr, none⟩] }

/-- `clean_included_paths`: each candidate path is processed once per
normalised key (the `seen` set), through `included_path_step`. -/
def clean_included_paths (fs : Fs) (clock : Clock) (d : CategoryDef)
    (included : List String) : CleanupResult × List RemoveCall :=
  let cutoff := cutoff_time clock d.kind
  let st := included.foldl
    (fun (st : CleanAcc × List String) pathStr =>
      if st.2.contains (normalize_path_str pathStr) then st
      else (included_path_step fs d cutoff st.1 pathStr, st.2 ++ [normalize_path_str pathStr]))
    (CleanAcc.init, [])
  (⟨st.1.deleted_bytes, st.1.deleted_count, st.1.failed⟩, st.1.calls)

/-- Association-list counterpart of the request `HashMap`s. -/
def lookupBy {α : Type} (m : List (String × α)) (key : String) : Option α :=
  (m.find? (fun kv => kv.1 == key)).map (fun kv => kv.2)

/-- The body of the `clean_categories_sync` loop for one category: the
include-list override, the selected-ids gate, then the normal clean with
the category's exclusion set and caller stats. -/
def per_category_clean (fs : Fs) (rb : RecycleBinEnv) (clock : Clock)
    (request : CleanRequest) (d : CategoryDef) : CleanupResult × List RemoveCall :=
  let included := (lookupBy request.included_paths d.id).getD []
  if ! included.isEmpty then clean_included_paths fs clock d included
  else if ! request.ids.contains d.id then (⟨0, 0, []⟩, [])
  else
    let excluded := ((lookupBy request.excluded_paths d.id).map normalize_exclusions).getD []
    let stats := lookupBy request.category_stats d.id
    clean_category fs rb clock d excluded stats

/-- The `deleted_bytes += ...; deleted_count += ...; failed.extend(...)`
accumulation of the `clean_categories_sync` loop, plus trace collection. -/
def mergeResults (a b : CleanupResult × List RemoveCall) : CleanupResult × List RemoveCall :=
  (⟨a.1.deleted_bytes + b.1.deleted_bytes, a.1.deleted_count + b.1.deleted_count,
    a.1.failed ++ b.1.failed⟩, a.2 ++ b.2)

/-- One iteration of the `clean_categories_sync` loop: the include-list
override, the selected-ids gate (`continue`), then the normal clean. -/
def clean_categories_step (fs : Fs) (rb : RecycleBinEnv) (clock : Clock)
    (request : CleanRequest) (st : CleanupResult × List RemoveCall) (d : CategoryDef) :
    CleanupResult × List RemoveCall :=
  let included := (lookupBy request.included_paths d.id).getD []
  if ! included.isEmpty then mergeResults st (clean_included_paths fs clock d included)
  else if ! request.ids.contains d.id then st
  else
    let excluded := ((lookupBy request.excluded_paths d.id).map normalize_exclusions).getD []
    let stats := lookupBy request.category_stats d.id
    mergeResults st (clean_category fs rb clock d excluded stats)

/-- `clean_categories_sync`: iterate the catalog in definition order,
accumulating counters, failures and (in the model) the removal trace. -/
def clean_categories_sync (fs : Fs) (rb : RecycleBinEnv) (clock : Clock)
    (cats : List CategoryDef) (request : CleanRequest) : CleanupResult × List RemoveCall :=
  cats.foldl (clean_categories_step fs rb clock request) (⟨0, 0, []⟩, [])

/-- `system_drive_mount`: the `%SystemDrive%` value with a trailing
separator, e.g. `"C:\\"`. -/
def system_drive_mount (systemDrive : String) : String := systemDrive ++ "\\"

/-- `dir_metrics`: recursive size and file count of a directory, with
saturating accumulation. -/
def dir_metrics (fs : Fs) (path : String) : Nat × Nat :=
  (fs.walk path).foldl
    (fun (st : Nat × Nat) e =>
      if ! e.isFileType then st
      else
        match e.metadata with
        | .ok meta => (satAdd64 st.1 meta.len, satAdd64 st.2 1)
        | .error _ => st)
    (0, 0)

/-- One step of `clean_large_items_sync` for a single candidate path,
ignoring duplicate suppression: scope guard, drive-root guard, stat, then
recursive directory removal (measured first) or file removal. -/
def large_item_step (fs : Fs) (root : String) (acc : CleanAcc) (pathStr : String) : CleanAcc :=
  if ! is_within_root fs root pathStr then
    { acc with failed := acc.failed ++ [⟨pathStr, "Path is outside scan scope."⟩] }
  else if path_eq_ignore_case pathStr root then
    { acc with failed := acc.failed ++ [⟨pathStr, "Refusing to delete drive root."⟩] }
  else
    match fs.stat pathStr with
    | .error err => { acc with failed := acc.failed ++ [⟨pathStr, err⟩] }
    | .ok meta =>
      if meta.isDir then
        let metrics := dir_metrics fs pathStr
        match fs.remove_dir_all pathStr with
        | some err =>
          { acc with failed := acc.failed ++ [⟨pathStr, err⟩],
                     calls := acc.calls ++ [⟨.dirAll, pathStr, some err⟩] }
        | none =>
          { acc with deleted_bytes := satAdd64 acc.deleted_bytes metrics.1,
                     deleted_count := satAdd64 acc.deleted_count metrics.2,
                     calls := acc.calls ++ [⟨.dirAll, pathStr, none⟩] }
      else
        match fs.remove_file pathStr with
        | some err =>
          { acc with failed := acc.failed ++ [⟨pathStr, err⟩],
                     calls := acc.calls ++ [⟨.file, pathStr, some err⟩] }
        | none =>
          { acc with deleted_bytes := satAdd64 acc.deleted_bytes meta.len,
                     deleted_count := satAdd64 acc.deleted_count 1,
                     calls := acc.calls ++ [⟨.file, pathStr, none⟩] }

/-- `clean_large_items_sync`: the ad-hoc cleaner over an explicit path
list, deduplicated by normalised key, each processed by `large_item_step`. -/
def clean_large_items_sync (fs : Fs) (systemDrive : String) (paths : List String) :
    CleanupResult × List RemoveCall :=
  let root := system_drive_mount systemDrive
  let st := paths.foldl
    (fun (st : CleanAcc × List String) pathStr =>
      if st.2.contains (normalize_path_str pathStr) then st
      else (large_item_step fs root st.1 pathStr, st.2 ++ [normalize_path_str pathStr]))
    (CleanAcc.init, [])
  (⟨st.1.deleted_bytes, st.1.deleted_count, st.1.failed⟩, st.1.calls)

/-! ### Observation vocabulary

Derived definitions used to state properties of the engine: the list of
paths a seen-set loop actually processes, the per-path effect of one loop
step on the accumulator, the file-deletion attempts and queued directories
of a walk, and the walkdir contract. -/

/-- First occurrence of each normalised key, given already-seen keys: the
paths a seen-set loop actually processes. -/
def dedupByKey : List String → List String → List String
  | [], _ => []
  | p :: rest, seen =>
    if seen.contains (normalize_path_str p) then dedupByKey rest seen
    else p :: dedupByKey rest (seen ++ [normalize_path_str p])

/-- The effect of one per-path step on the accumulator: an optional
(bytes, count) credit, the failure entries appended, and the removal calls
issued. -/
structure StepDelta where
  credit : Option (Nat × Nat)
  fails : List CleanupError
  calls : List RemoveCall
deriving Repr, DecidableEq

def StepDelta.creditBytes (d : StepDelta) : Nat := (d.credit.map Prod.fst).getD 0

def StepDelta.creditCount (d : StepDelta) : Nat := (d.credit.map Prod.snd).getD 0

/-- Apply a step effect with plain (`+=`) accumulation. -/
def applyPlain (acc : CleanAcc) (d : StepDelta) : CleanAcc :=
  match d.credit with
  | some bc =>
    ⟨acc.deleted_bytes + bc.1, acc.deleted_count + bc.2,
     acc.failed ++ d.fails, acc.calls ++ d.calls⟩
  | none => ⟨acc.deleted_bytes, acc.deleted_count, acc.failed ++ d.fails, acc.calls ++ d.calls⟩

/-- Apply a step effect with `saturating_add` accumulation. -/
def applySat (acc : CleanAcc) (d : StepDelta) : CleanAcc :=
  match d.credit with
  | some bc =>
    ⟨satAdd64 acc.deleted_bytes bc.1, satAdd64 acc.deleted_count bc.2,
     acc.failed ++ d.fails, acc.calls ++ d.calls⟩
  | none => ⟨acc.deleted_bytes, acc.deleted_count, acc.failed ++ d.fails, acc.calls ++ d.calls⟩

/-- The effect of `delete_file` on the accumulator, as a function of the
path alone. -/
def delete_file_delta (fs : Fs) (path : String) (cutoff : Option Int)
    (excluded : List String) : StepDelta :=
  if excluded.contains (normalize_path_str path) then ⟨none, [], []⟩
  else
    match fs.stat path with
    | .error err => ⟨none, [⟨path, err⟩], []⟩
    | .ok meta =>
      if ! matches_cutoff meta cutoff then ⟨none, [], []⟩
      else
        match fs.remove_file path with
        | some err => ⟨none, [⟨path, err⟩], [⟨.file, path, some err⟩]⟩
        | none => ⟨some (meta.len, 1), [], [⟨.file, path, none⟩]⟩

/-- The effect of `included_path_step` on the accumulator. -/
def included_path_delta (fs : Fs) (d : CategoryDef) (cutoff : Option Int)
    (pathStr : String) : StepDelta :=
  if ! is_within_roots fs d pathStr then
    ⟨none, [⟨pathStr, "Path is outside cleanup scope."⟩], []⟩
  else
    match fs.stat pathStr with
    | .error err => ⟨none, [⟨pathStr, err⟩], []⟩
    | .ok meta =>
      if meta.isDir then ⟨none, [⟨pathStr, "Path is a directory."⟩], []⟩
      else if ! matches_cutoff meta cutoff then ⟨none, [], []⟩
      else
        match fs.remove_file pathStr with
        | some err => ⟨none, [⟨pathStr, err⟩], [⟨.file, pathStr, some err⟩]⟩
        | none => ⟨some (meta.len, 1), [], [⟨.file, pathStr, none⟩]⟩

/-- The effect of `large_item_step` on the accumulator. -/
def large_item_delta (fs : Fs) (root : String) (pathStr : String) : StepDelta :=
  if ! is_within_root fs root pathStr then
    ⟨none, [⟨pathStr, "Path is outside scan scope."⟩], []⟩
  else if path_eq_ignore_case pathStr root then
    ⟨none, [⟨pathStr, "Refusing to delete drive root."⟩], []⟩
  else
    match fs.stat pathStr with
    | .error err => ⟨none, [⟨pathStr, err⟩], []⟩
    | .ok meta =>
      if meta.isDir then
        match fs.remove_dir_all pathStr with
        | some err => ⟨none, [⟨pathStr, err⟩], [⟨.dirAll, pathStr, some err⟩]⟩
        | none =>
          ⟨some (dir_metrics fs pathStr), [], [⟨.dirAll, pathStr, none⟩]⟩
      else
        match fs.remove_file pathStr with
        | some err => ⟨none, [⟨pathStr, err⟩], [⟨.file, pathStr, some err⟩]⟩
        | none => ⟨some (meta.len, 1), [], [⟨.file, pathStr, none⟩]⟩

/-- The file-deletion attempts of a walk-and-delete pass, in order: file
roots directly, and each walked file entry of each existing directory
root. -/
def walk_file_attempts (fs : Fs) (roots : List String) : List String :=
  roots.flatMap fun root =>
    if ! fs.path_exists root then []
    else if fs.is_file root then [root]
    else ((fs.walk root).filter (fun e => ! e.isDirType && e.isFileType)).map (fun e => e.path)

/-- The directories queued for the empty-directory pass, in order: each
walked directory entry of each existing directory root, then the root
itself. -/
def collect_dirs (fs : Fs) (cleanupDirs : Bool) (roots : List String) : List String :=
  if cleanupDirs then
    roots.flatMap fun root =>
      if ! fs.path_exists root then []
      else if fs.is_file root then []
      else ((fs.walk root).filter (fun e => e.isDirType)).map (fun e => e.path) ++ [root]
  else []

/-- The walkdir contract on a directory root, phrased exactly as the
directory branch of the containment checks: the entry is the root itself or
sits below root-plus-separator. -/
def walk_entry_within (root p : String) : Bool :=
  let rootNorm := normalize_path_str root
  let target := normalize_path_str p
  let pfx := if endsWithSep rootNorm then rootNorm else rootNorm ++ "\\"
  target == rootNorm || strStartsWith target pfx

/-- A filesystem honours the walkdir contract: walking a root only yields
entries within that root. -/
def WalkScoped (fs : Fs) : Prop :=
  ∀ root e, e ∈ fs.walk root → walk_entry_within root e.path = true

/-- The per-root outcome of the fast-clear pass. -/
def fast_dir_outcome (fs : Fs) (root : String) : Option String :=
  if fs.is_file root then fs.remove_file root else fs.remove_dir_all root

/-- The roots the fast-clear pass touches. -/
def existing_roots (fs : Fs) (roots : List String) : List String :=
  roots.filter fun r => fs.path_exists r

/-- The items a file root contributes when its checkpoint is processed by
the listing loop. -/
def root_file_items (fs : Fs) (cutoff : Option Int) (root : String) : List CleanupItem :=
  match fs.stat root with
  | .ok meta => if matches_cutoff meta cutoff then [to_item root meta] else []
  | .error _ => []

/-- The items a walk entry contributes when its checkpoint is processed. -/
def entry_token_items (cutoff : Option Int) (e : FsEntry) : List CleanupItem :=
  if ! e.isFileType then []
  else
    match e.metadata with
    | .ok meta => if matches_cutoff meta cutoff then [to_item e.path meta] else []
    | .error _ => []

/-- The checkpoints of the listing traversal in order — one per root (in
root-list order), then one per walk entry of an existing directory root
(in walk order) — each carrying the items appended when it is processed.
The limit is tested at every checkpoint. -/
def list_tokens (fs : Fs) (cutoff : Option Int) (roots : List String) :
    List (List CleanupItem) :=
  roots.flatMap fun root =>
    if ! fs.path_exists root then [[]]
    else if fs.is_file root then [root_file_items fs cutoff root]
    else [[]] ++ (fs.walk root).map (entry_token_items cutoff)

/-- Linear scan over the checkpoints: before each checkpoint the limit is
tested (`has_more` and stop when reached), else its items are appended. -/
def list_scan (limit : Nat) :
    List (List CleanupItem) → List CleanupItem → List CleanupItem × Bool
  | [], items => (items, false)
  | t :: ts, items =>
    if limit ≤ items.length then (items, true)
    else list_scan limit ts (items ++ t)

/-! ### Concrete instances for witnesses and counterexamples -/

def fsC3 : Fs := {
  path_exists := fun p => p == "c:\\t" || p == "c:\\t\\a.txt"
  is_file := fun p => p == "c:\\t\\a.txt"
  stat := fun p => if p == "c:\\t\\a.txt" then .ok ⟨false, 10, some 7⟩ else .error "not found"
  walk := fun _ => []
  remove_file := fun _ => none
  remove_dir_all := fun _ => none
  remove_dir := fun _ => none }

def entC3 : FsEntry := ⟨"c:\\t\\a.txt", true, false, .ok ⟨false, 10, some 7⟩⟩

def dC7 : CategoryDef :=
  ⟨"temp_files", "t", "d", .downloadsOlderThan 1, ["c:\\t"], false⟩

def clockC7 : Clock := ⟨200000, -1000000⟩

def fsC7 : Fs := {
  path_exists := fun p => p == "c:\\t"
  is_file := fun _ => false
  stat := fun p =>
    if p == "c:\\t\\sub" then .ok ⟨true, 0, none⟩
    else if p == "c:\\t\\old.txt" then .ok ⟨false, 5, some 999999⟩
    else .error "not found"
  walk := fun _ => []
  remove_file := fun _ => none
  remove_dir_all := fun _ => none
  remove_dir := fun _ => none }

def inclC7 : List String := ["d:\\out", "c:\\t\\sub", "c:\\t\\old.txt", "D:/OUT"]

def rbUnused : RecycleBinEnv := ⟨.error "unused", .error "unused"⟩

def clockZero : Clock := ⟨0, 0⟩

def dC2w : CategoryDef := ⟨"temp_files", "", "", .standard, ["c:\\t"], false⟩

def fsC2w : Fs := {
  path_exists := fun p => p == "c:\\t"
  is_file := fun _ => false
  stat := fun p =>
    if p == "c:\\t\\a.txt" then .ok ⟨false, 10, some 5⟩
    else if p == "c:\\t\\b.txt" then .ok ⟨false, 4, some 5⟩
    else .error "nf"
  walk := fun r =>
    if r == "c:\\t" then
      [⟨"c:\\t\\a.txt", true, false, .ok ⟨false, 10, some 5⟩⟩,
       ⟨"c:\\t\\b.txt", true, false, .ok ⟨false, 4, some 5⟩⟩]
    else []
  remove_file := fun p => if p == "c:\\t\\b.txt" then some "denied" else none
  remove_dir_all := fun _ => none
  remove_dir := fun _ => none }

def dC2cx : CategoryDef := ⟨"temp_files", "", "", .standard, ["c:\\t"], true⟩

def fsEmpty : Fs := {
  path_exists := fun _ => false
  is_file := fun _ => false
  stat := fun _ => .error "nf"
  walk := fun _ => []
  remove_file := fun _ => none
  remove_dir_all := fun _ => none
  remove_dir := fun _ => none }

def dC8 : CategoryDef := ⟨"system_cache", "", "", .standard, ["c:\\sc1", "c:\\sc2"], true⟩

def fsC8 : Fs := {
  path_exists := fun p => p == "c:\\sc1" || p == "c:\\sc2"
  is_file := fun _ => false
  stat := fun _ => .error "nf"
  walk := fun _ => []
  remove_file := fun _ => none
  remove_dir_all := fun p => if p == "c:\\sc2" then some "busy" else none
  remove_dir := fun _ => none }

def fsC8ok : Fs := {
  path_exists := fun p => p == "c:\\sc1" || p == "c:\\sc2"
  is_file := fun _ => false
  stat := fun _ => .error "nf"
  walk := fun _ => []
  remove_file := fun _ => none
  remove_dir_all := fun _ => none
  remove_dir := fun _ => none }

def dC9 : CategoryDef := ⟨"recycle_bin", "", "", .standard, [], true⟩

def dC5 : CategoryDef := ⟨"temp_files", "", "", .standard, ["c:\\t"], true⟩

def dC6 : CategoryDef := ⟨"temp_files", "", "", .standard, ["c:\\t"], false⟩

def fsC6 : Fs := {
  path_exists := fun p => p == "c:\\t"
  is_file := fun _ => false
  stat := fun p =>
    if p == "c:\\t\\a.txt" then .ok ⟨false, 10, some 5⟩ else .error "nf"
  walk := fun _ => []
  remove_file := fun _ => none
  remove_dir_all := fun _ => none
  remove_dir := fun _ => none }

def reqC6 : CleanRequest := ⟨[], [], [("temp_files", ["c:\\t\\a.txt"])], []⟩

def reqC6b : CleanRequest := ⟨[], [], [], []⟩

def dC1 : CategoryDef := ⟨"temp_files", "", "", .standard, ["c:\\t"], true⟩

def fsC1 : Fs := {
  path_exists := fun p => p == "c:\\t"
  is_file := fun _ => false
  stat := fun p =>
    if p == "c:\\t\\a.txt" then .ok ⟨false, 10, some 5⟩ else .error "nf"
  walk := fun r =>
    if r == "c:\\t" then
      [⟨"c:\\t", false, true, .error "r"⟩,
       ⟨"c:\\t\\a.txt", true, false, .ok ⟨false, 10, some 5⟩⟩]
    else []
  remove_file := fun _ => none
  remove_dir_all := fun _ => none
  remove_dir := fun _ => none }

def fsC5 : Fs := {
  path_exists := fun p => p == "c:\\t"
  is_file := fun _ => false
  stat := fun _ => .error "nf"
  walk := fun r =>
    if r == "c:\\t" then [⟨"c:\\t\\cachedir", false, true, .ok ⟨true, 0, none⟩⟩] else []
  remove_file := fun _ => none
  remove_dir_all := fun _ => none
  remove_dir := fun _ => none }

def rbC9 : RecycleBinEnv := ⟨.ok (123, 4), .ok ()⟩

def rbC9cx : RecycleBinEnv := ⟨.ok (123, 4), .error "boom"⟩

def fsC2cx : Fs := {
  path_exists := fun p => p == "c:\\t"
  is_file := fun _ => false
  stat := fun _ => .error "nf"
  walk := fun r =>
    if r == "c:\\t" then [⟨"c:\\t\\locked", false, true, .error "x"⟩] else []
  remove_file := fun _ => none
  remove_dir_all := fun _ => none
  remove_dir := fun _ => some "directory locked" }

/-! ### Cutoff lemmas -/

lemma matches_cutoff_iff (meta : Metadata) (c : Int) :
    matches_cutoff meta (some c) = true ↔ ∃ m, meta.modified = some m ∧ m < c := by
  cases h : meta.modified with
  | none => simp [matches_cutoff, h]
  | some m => simp [matches_cutoff, h]

lemma matches_cutoff_ge_false {meta : Metadata} {m c : Int}
    (h1 : meta.modified = some m) (h2 : c ≤ m) :
    matches_cutoff meta (some c) = false := by
  simp only [matches_cutoff, h1, decide_eq_false_iff_not]
  omega

lemma scan_entries_skip (pre post : List FsEntry) (e : FsEntry) (meta : Metadata)
    (m c : Int) (h1 : e.metadata = .ok meta) (h2 : meta.modified = some m) (h3 : c ≤ m) :
    scan_entries (pre ++ e :: post) (some c) = scan_entries (pre ++ post) (some c) := by
  simp only [scan_entries, List.foldl_append, List.foldl_cons]
  by_cases hf : e.isFileType <;>
    simp [hf, h1, matches_cutoff_ge_false h2 h3]

lemma list_walk_entries_items_full (cutoff : Option Int) (limit : Nat)
    (l : List FsEntry) (items : List CleanupItem) (h : limit ≤ items.length) :
    (list_walk_entries cutoff limit l items).1 = items := by
  cases l with
  | nil => rfl
  | cons e rest => simp [list_walk_entries, h]

lemma list_walk_entries_skip (limit : Nat)
    (pre post : List FsEntry) (e : FsEntry) (meta : Metadata) (m c : Int)
    (h1 : e.metadata = .ok meta) (h2 : meta.modified = some m) (h3 : c ≤ m)
    (items : List CleanupItem) :
    (list_walk_entries (some c) limit (pre ++ e :: post) items).1 =
      (list_walk_entries (some c) limit (pre ++ post) items).1 := by
  induction pre generalizing items with
  | nil =>
    by_cases hl : limit ≤ items.length
    · simp only [List.nil_append]
      rw [list_walk_entries_items_full _ _ _ _ hl, list_walk_entries_items_full _ _ _ _ hl]
    · simp only [List.nil_append, list_walk_entries, hl, if_false]
      by_cases hf : e.isFileType <;>
        simp [hf, h1, matches_cutoff_ge_false h2 h3]
  | cons x pre ih =>
    simp only [List.cons_append, list_walk_entries]
    by_cases hl : limit ≤ items.length
    · simp [hl]
    · simp only [hl, if_false]
      by_cases hf : x.isFileType
      · cases hm : x.metadata with
        | ok xmeta =>
          by_cases hc : matches_cutoff xmeta (some c) <;> simp [hf, hm, hc, ih]
        | error err => simp [hf, hm, ih]
      · simp [hf, ih]

lemma delete_file_ge_noop (fs : Fs) (p : String) (c : Int) (excluded : List String)
    (acc : CleanAcc) (meta : Metadata) (m : Int)
    (h1 : fs.stat p = .ok meta) (h2 : meta.modified = some m) (h3 : c ≤ m) :
    delete_file fs p (some c) excluded acc = acc := by
  by_cases hex : excluded.contains (normalize_path_str p) <;>
    simp [delete_file, hex, h1, matches_cutoff_ge_false h2 h3]

lemma included_path_step_ge_noop (fs : Fs) (d : CategoryDef) (p : String) (c : Int)
    (acc : CleanAcc) (meta : Metadata) (m : Int)
    (hw : is_within_roots fs d p = true) (h1 : fs.stat p = .ok meta)
    (hd : meta.isDir = false) (h2 : meta.modified = some m) (h3 : c ≤ m) :
    included_path_step fs d (some c) acc p = acc := by
  simp [included_path_step, hw, h1, hd, matches_cutoff_ge_false h2 h3]

/-- C3: strict time-filter boundary — a file passes an `olderThan` filter
iff its modified time is strictly earlier than the cutoff; a file whose
modified time is at or after the cutoff is excluded from scan totals, from
item listings, from walk-and-delete deletions (`delete_file` leaves the
accumulator untouched) and from included-path deletions (silently
skipped). -/
theorem C3_strict_cutoff_boundary :
    (∀ (meta : Metadata) (c : Int),
      matches_cutoff meta (some c) = true ↔ ∃ m, meta.modified = some m ∧ m < c) ∧
    (∀ (meta : Metadata) (m c : Int), meta.modified = some m → c ≤ m →
      matches_cutoff meta (some c) = false) ∧
    (∀ (pre post : List FsEntry) (e : FsEntry) (meta : Metadata) (m c : Int),
      e.metadata = .ok meta → meta.modified = some m → c ≤ m →
      scan_entries (pre ++ e :: post) (some c) = scan_entries (pre ++ post) (some c)) ∧
    (∀ (limit : Nat) (pre post : List FsEntry) (e : FsEntry) (meta : Metadata) (m c : Int)
      (items : List CleanupItem),
      e.metadata = .ok meta → meta.modified = some m → c ≤ m →
      (list_walk_entries (some c) limit (pre ++ e :: post) items).1 =
        (list_walk_entries (some c) limit (pre ++ post) items).1) ∧
    (∀ (fs : Fs) (p : String) (c : Int) (excluded : List String) (acc : CleanAcc)
      (meta : Metadata) (m : Int),
      fs.stat p = .ok meta → meta.modified = some m → c ≤ m →
      delete_file fs p (some c) excluded acc = acc) ∧
    (∀ (fs : Fs) (d : CategoryDef) (p : String) (c : Int) (acc : CleanAcc)
      (meta : Metadata) (m : Int),
      is_within_roots fs d p = true → fs.stat p = .ok meta → meta.isDir = false →
      meta.modified = some m → c ≤ m →
      included_path_step fs d (some c) acc p = acc) :=
  ⟨matches_cutoff_iff,
   fun _ _ _ h1 h2 => matches_cutoff_ge_false h1 h2,
   fun pre post e meta m c h1 h2 h3 => scan_entries_skip pre post e meta m c h1 h2 h3,
   fun limit pre post e meta m c items h1 h2 h3 =>
     list_walk_entries_skip limit pre post e meta m c h1 h2 h3 items,
   fun fs p c excluded acc meta m h1 h2 h3 => delete_file_ge_noop fs p c excluded acc meta m h1 h2 h3,
   fun fs d p c acc meta m hw h1 hd h2 h3 =>
     included_path_step_ge_noop fs d p c acc meta m hw h1 hd h2 h3⟩

/-- Witness for C3 at a concrete boundary input: a file modified exactly at
the cutoff is not matched, not scanned, not listed, and `delete_file`
leaves the accumulator unchanged. -/
theorem C3_strict_cutoff_boundary_witness :
    matches_cutoff ⟨false, 10, some 7⟩ (some 7) = false ∧
    scan_entries ([] ++ entC3 :: []) (some 7) = scan_entries ([] ++ []) (some 7) ∧
    (list_walk_entries (some 7) 5 ([] ++ entC3 :: []) []).1 =
      (list_walk_entries (some 7) 5 ([] ++ []) []).1 ∧
    delete_file fsC3 "c:\\t\\a.txt" (some 7) [] CleanAcc.init = CleanAcc.init :=
  ⟨C3_strict_cutoff_boundary.2.1 ⟨false, 10, some 7⟩ 7 7 rfl (by decide),
   C3_strict_cutoff_boundary.2.2.1 [] [] entC3 ⟨false, 10, some 7⟩ 7 7 rfl rfl (by decide),
   C3_strict_cutoff_boundary.2.2.2.1 5 [] [] entC3 ⟨false, 10, some 7⟩ 7 7 [] rfl rfl (by decide),
   C3_strict_cutoff_boundary.2.2.2.2.1 fsC3 "c:\\t\\a.txt" 7 [] CleanAcc.init
     ⟨false, 10, some 7⟩ 7 (by decide) rfl (by decide)⟩

/-- C4 (amended): when "now minus N days" underflows the representable
range, the cutoff clamps to the Unix epoch (not to the earliest
representable instant), and the resulting filter matches exactly the files
whose modified time is strictly before the epoch (not every file). -/
theorem C4_underflow_epoch_clamp (clock : Clock) (days : Nat) (meta : Metadata)
    (h : clock.now - ((satMul64 days 86400 : Nat) : Int) < clock.min_instant) :
    cutoff_time clock (.downloadsOlderThan days) = some 0 ∧
    (matches_cutoff meta (some 0) = true ↔ ∃ m, meta.modified = some m ∧ m < 0) := by
  constructor
  · simp [cutoff_time, checkedSub, h]
  · exact matches_cutoff_iff meta 0

/-- Witness for C4 at a concrete underflowing clock. -/
theorem C4_underflow_epoch_clamp_witness :
    cutoff_time ⟨1000, -10⟩ (.downloadsOlderThan 1) = some 0 ∧
    (matches_cutoff ⟨false, 5, some (-3)⟩ (some 0) = true ↔
      ∃ m, Metadata.modified ⟨false, 5, some (-3)⟩ = some m ∧ m < 0) :=
  C4_underflow_epoch_clamp ⟨1000, -10⟩ 1 ⟨false, 5, some (-3)⟩ (by decide)

/-- Counterexample to C4 as stated: at `now = 1000`, earliest representable
instant `-10`, `N = 1` day, the subtraction underflows, yet the cutoff is
the epoch (`some 0`), not the earliest representable instant (`some
(-10)`), and a file modified at time `100` (after the cutoff exists) is not
matched — the clamped filter does not match every file. -/
theorem C4_underflow_epoch_clamp_cx :
    checkedSub ⟨1000, -10⟩ (satMul64 1 86400) = none ∧
    cutoff_time ⟨1000, -10⟩ (.downloadsOlderThan 1) = some 0 ∧
    cutoff_time ⟨1000, -10⟩ (.downloadsOlderThan 1) ≠ some (Clock.min_instant ⟨1000, -10⟩) ∧
    matches_cutoff ⟨false, 5, some 100⟩ (some 0) = false := by
  refine ⟨by decide, by decide, by decide, by decide⟩

/-! ### Duplicate-suppression lemmas -/

lemma contains_iff (l : List String) (s : String) : l.contains s = true ↔ s ∈ l :=
  List.elem_iff

lemma dedup_foldl {α : Type} (step : α → String → α) (ps : List String)
    (seen : List String) (acc : α) :
    ps.foldl
      (fun (st : α × List String) q =>
        if st.2.contains (normalize_path_str q) then st
        else (step st.1 q, st.2 ++ [normalize_path_str q]))
      (acc, seen)
    = ((dedupByKey ps seen).foldl step acc,
       seen ++ (dedupByKey ps seen).map normalize_path_str) := by
  induction ps generalizing seen acc with
  | nil => simp [dedupByKey]
  | cons p rest ih =>
    simp only [List.foldl_cons, dedupByKey]
    by_cases h : normalize_path_str p ∈ seen
    · rw [if_pos ((contains_iff _ _).2 h), if_pos ((contains_iff _ _).2 h)]
      exact ih seen acc
    · have hb : ¬(seen.contains (normalize_path_str p) = true) :=
        fun hcon => h ((contains_iff _ _).1 hcon)
      rw [if_neg hb, if_neg hb, ih]
      simp [List.append_assoc]

lemma dedupByKey_subset (ps : List String) :
    ∀ (seen : List String) {p : String}, p ∈ dedupByKey ps seen → p ∈ ps := by
  induction ps with
  | nil => intro seen p h; simp [dedupByKey] at h
  | cons q rest ih =>
    intro seen p h
    simp only [dedupByKey] at h
    by_cases hc : seen.contains (normalize_path_str q)
    · rw [if_pos hc] at h
      exact List.mem_cons_of_mem _ (ih _ h)
    · rw [if_neg hc] at h
      rcases List.mem_cons.1 h with h | h
      · exact h ▸ List.mem_cons_self _ _
      · exact List.mem_cons_of_mem _ (ih _ h)

lemma dedupByKey_key_not_seen (ps : List String) :
    ∀ (seen : List String) {q : String}, q ∈ dedupByKey ps seen →
      normalize_path_str q ∉ seen := by
  induction ps with
  | nil => intro seen q h; simp [dedupByKey] at h
  | cons p rest ih =>
    intro seen q h
    simp only [dedupByKey] at h
    by_cases hc : seen.contains (normalize_path_str p)
    · rw [if_pos hc] at h
      exact ih _ h
    · rw [if_neg hc] at h
      rcases List.mem_cons.1 h with h | h
      · subst h
        intro hmem
        exact hc ((contains_iff _ _).2 hmem)
      · intro hmem
        exact ih _ h (List.mem_append_left _ hmem)

lemma dedupByKey_keys_nodup (ps : List String) :
    ∀ (seen : List String), ((dedupByKey ps seen).map normalize_path_str).Nodup := by
  induction ps with
  | nil => intro seen; simp [dedupByKey]
  | cons p rest ih =>
    intro seen
    simp only [dedupByKey]
    by_cases hc : seen.contains (normalize_path_str p)
    · rw [if_pos hc]; exact ih seen
    · rw [if_neg hc]
      simp only [List.map_cons, List.nodup_cons]
      refine ⟨?_, ih _⟩
      intro hmem
      rcases List.mem_map.1 hmem with ⟨q, hq, hkey⟩
      exact dedupByKey_key_not_seen rest _ hq (by simp [hkey])

lemma dedupByKey_nodup (ps seen : List String) : (dedupByKey ps seen).Nodup :=
  (dedupByKey_keys_nodup ps seen).of_map

lemma dedupByKey_cover (ps : List String) :
    ∀ (seen : List String) {p : String}, p ∈ ps →
      normalize_path_str p ∈ seen ∨
        ∃ q ∈ dedupByKey ps seen, normalize_path_str q = normalize_path_str p := by
  induction ps with
  | nil => intro seen p h; simp at h
  | cons r rest ih =>
    intro seen p h
    simp only [dedupByKey]
    by_cases hc : seen.contains (normalize_path_str r)
    · rw [if_pos hc]
      rcases List.mem_cons.1 h with h | h
      · exact Or.inl (by rw [h]; exact (contains_iff _ _).1 hc)
      · exact ih seen h
    · rw [if_neg hc]
      rcases List.mem_cons.1 h with h | h
      · exact Or.inr ⟨r, List.mem_cons_self _ _, by rw [h]⟩
      · rcases ih (seen ++ [normalize_path_str r]) h with hmem | ⟨q, hq, hkey⟩
        · rcases List.mem_append.1 hmem with hmem | hmem
          · exact Or.inl hmem
          · simp only [List.mem_singleton] at hmem
            exact Or.inr ⟨r, List.mem_cons_self _ _, hmem.symm⟩
        · exact Or.inr ⟨q, List.mem_cons_of_mem _ hq, hkey⟩

lemma dedupByKey_of_fresh (l : List String) :
    ∀ (seen : List String), (∀ q ∈ l, normalize_path_str q ∉ seen) →
      (l.map normalize_path_str).Nodup → dedupByKey l seen = l := by
  induction l with
  | nil => intro seen _ _; rfl
  | cons p rest ih =>
    intro seen hfresh hnodup
    simp only [List.map_cons, List.nodup_cons] at hnodup
    have hc : seen.contains (normalize_path_str p) = false := by
      rw [← Bool.not_eq_true, contains_iff]
      exact hfresh p (List.mem_cons_self _ _)
    simp only [dedupByKey, hc, Bool.false_eq_true, if_false, List.cons.injEq, true_and]
    refine ih _ ?_ hnodup.2
    intro q hq hmem
    rcases List.mem_append.1 hmem with hmem | hmem
    · exact hfresh q (List.mem_cons_of_mem _ hq) hmem
    · simp only [List.mem_singleton] at hmem
      exact hnodup.1 (List.mem_map.2 ⟨q, hq, hmem⟩)

lemma dedupByKey_idem (ps seen : List String) :
    dedupByKey (dedupByKey ps seen) seen = dedupByKey ps seen :=
  dedupByKey_of_fresh _ _ (fun _ hq => dedupByKey_key_not_seen ps seen hq)
    (dedupByKey_keys_nodup ps seen)

/-! ### Accumulator-delta lemmas -/

lemma satAdd64_assoc (a b c : Nat) : satAdd64 (satAdd64 a b) c = satAdd64 a (b + c) := by
  simp only [satAdd64, U64MAX]
  omega

lemma satAdd64_le_max (a b : Nat) : satAdd64 a b ≤ U64MAX :=
  min_le_right _ _

lemma satAdd64_zero (a : Nat) (h : a ≤ U64MAX) : satAdd64 a 0 = a := by
  simp only [satAdd64]
  omega

lemma foldl_applyPlain (f : String → StepDelta) (ps : List String) (acc : CleanAcc) :
    ps.foldl (fun a p => applyPlain a (f p)) acc =
      ⟨acc.deleted_bytes + (ps.map fun p => (f p).creditBytes).sum,
       acc.deleted_count + (ps.map fun p => (f p).creditCount).sum,
       acc.failed ++ ps.flatMap fun p => (f p).fails,
       acc.calls ++ ps.flatMap fun p => (f p).calls⟩ := by
  induction ps generalizing acc with
  | nil => simp
  | cons p rest ih =>
    simp only [List.foldl_cons, ih, List.map_cons, List.sum_cons, List.flatMap_cons]
    cases h : (f p).credit with
    | none =>
      simp [applyPlain, h, StepDelta.creditBytes, StepDelta.creditCount, List.append_assoc]
    | some bc =>
      simp [applyPlain, h, StepDelta.creditBytes, StepDelta.creditCount, List.append_assoc,
        Nat.add_assoc]

lemma foldl_applySat (f : String → StepDelta) (ps : List String) (acc : CleanAcc)
    (hb : acc.deleted_bytes ≤ U64MAX) (hc : acc.deleted_count ≤ U64MAX) :
    ps.foldl (fun a p => applySat a (f p)) acc =
      ⟨satAdd64 acc.deleted_bytes (ps.map fun p => (f p).creditBytes).sum,
       satAdd64 acc.deleted_count (ps.map fun p => (f p).creditCount).sum,
       acc.failed ++ ps.flatMap fun p => (f p).fails,
       acc.calls ++ ps.flatMap fun p => (f p).calls⟩ := by
  induction ps generalizing acc with
  | nil => simp [satAdd64_zero _ hb, satAdd64_zero _ hc]
  | cons p rest ih =>
    have h1 : (applySat acc (f p)).deleted_bytes ≤ U64MAX := by
      cases h : (f p).credit <;> simp [applySat, h, hb, satAdd64_le_max]
    have h2 : (applySat acc (f p)).deleted_count ≤ U64MAX := by
      cases h : (f p).credit <;> simp [applySat, h, hc, satAdd64_le_max]
    simp only [List.foldl_cons, List.map_cons, List.sum_cons, List.flatMap_cons]
    rw [ih (applySat acc (f p)) h1 h2]
    cases h : (f p).credit with
    | none =>
      simp [applySat, h, StepDelta.creditBytes, StepDelta.creditCount, List.append_assoc]
    | some bc =>
      simp [applySat, h, StepDelta.creditBytes, StepDelta.creditCount, List.append_assoc,
        satAdd64_assoc]

lemma included_path_step_eq (fs : Fs) (d : CategoryDef) (cutoff : Option Int)
    (acc : CleanAcc) (p : String) :
    included_path_step fs d cutoff acc p =
      applyPlain acc (included_path_delta fs d cutoff p) := by
  unfold included_path_step included_path_delta
  cases hw : is_within_roots fs d p with
  | false => simp [hw, applyPlain]
  | true =>
    cases hs : fs.stat p with
    | error err => simp [hw, hs, applyPlain]
    | ok meta =>
      cases hd : meta.isDir with
      | true => simp [hw, hs, hd, applyPlain]
      | false =>
        cases hm : matches_cutoff meta cutoff with
        | false => simp [hw, hs, hd, hm, applyPlain]
        | true =>
          cases hr : fs.remove_file p with
          | none => simp [hw, hs, hd, hm, hr, applyPlain]
          | some err => simp [hw, hs, hd, hm, hr, applyPlain]

lemma delete_file_eq (fs : Fs) (p : String) (cutoff : Option Int)
    (excluded : List String) (acc : CleanAcc) :
    delete_file fs p cutoff excluded acc =
      applyPlain acc (delete_file_delta fs p cutoff excluded) := by
  unfold delete_file delete_file_delta
  by_cases hx : normalize_path_str p ∈ excluded
  · simp [hx, applyPlain]
  · cases hs : fs.stat p with
    | error err => simp [hx, hs, applyPlain]
    | ok meta =>
      cases hm : matches_cutoff meta cutoff with
      | false => simp [hx, hs, hm, applyPlain]
      | true =>
        cases hr : fs.remove_file p with
        | none => simp [hx, hs, hm, hr, applyPlain]
        | some err => simp [hx, hs, hm, hr, applyPlain]

lemma large_item_step_eq (fs : Fs) (root : String) (acc : CleanAcc) (p : String) :
    large_item_step fs root acc p = applySat acc (large_item_delta fs root p) := by
  unfold large_item_step large_item_delta
  cases hw : is_within_root fs root p with
  | false => simp [hw, applySat]
  | true =>
    cases heq : path_eq_ignore_case p root with
    | true => simp [hw, heq, applySat]
    | false =>
      cases hs : fs.stat p with
      | error err => simp [hw, heq, hs, applySat]
      | ok meta =>
        cases hd : meta.isDir with
        | true =>
          cases hr : fs.remove_dir_all p with
          | none => simp [hw, heq, hs, hd, hr, applySat]
          | some err => simp [hw, heq, hs, hd, hr, applySat]
        | false =>
          cases hr : fs.remove_file p with
          | none => simp [hw, heq, hs, hd, hr, applySat]
          | some err => simp [hw, heq, hs, hd, hr, applySat]

/-! ### Loop characterisations -/

lemma clean_included_paths_spec (fs : Fs) (clock : Clock) (d : CategoryDef)
    (incl : List String) :
    clean_included_paths fs clock d incl =
      (⟨((dedupByKey incl []).map fun p =>
           (included_path_delta fs d (cutoff_time clock d.kind) p).creditBytes).sum,
        ((dedupByKey incl []).map fun p =>
           (included_path_delta fs d (cutoff_time clock d.kind) p).creditCount).sum,
        (dedupByKey incl []).flatMap fun p =>
          (included_path_delta fs d (cutoff_time clock d.kind) p).fails⟩,
       (dedupByKey incl []).flatMap fun p =>
         (included_path_delta fs d (cutoff_time clock d.kind) p).calls) := by
  simp only [clean_included_paths]
  rw [dedup_foldl (included_path_step fs d (cutoff_time clock d.kind)) incl [] CleanAcc.init]
  have hfun : included_path_step fs d (cutoff_time clock d.kind) =
      fun a p => applyPlain a (included_path_delta fs d (cutoff_time clock d.kind) p) :=
    funext fun a => funext fun p => included_path_step_eq fs d (cutoff_time clock d.kind) a p
  rw [hfun, foldl_applyPlain]
  simp [CleanAcc.init]

lemma clean_large_items_sync_spec (fs : Fs) (systemDrive : String) (paths : List String) :
    clean_large_items_sync fs systemDrive paths =
      (⟨min (((dedupByKey paths []).map fun p =>
            (large_item_delta fs (system_drive_mount systemDrive) p).creditBytes).sum) U64MAX,
        min (((dedupByKey paths []).map fun p =>
            (large_item_delta fs (system_drive_mount systemDrive) p).creditCount).sum) U64MAX,
        (dedupByKey paths []).flatMap fun p =>
          (large_item_delta fs (system_drive_mount systemDrive) p).fails⟩,
       (dedupByKey paths []).flatMap fun p =>
         (large_item_delta fs (system_drive_mount systemDrive) p).calls) := by
  simp only [clean_large_items_sync]
  rw [dedup_foldl (large_item_step fs (system_drive_mount systemDrive)) paths [] CleanAcc.init]
  have hfun : large_item_step fs (system_drive_mount systemDrive) =
      fun a p => applySat a (large_item_delta fs (system_drive_mount systemDrive) p) :=
    funext fun a => funext fun p => large_item_step_eq fs (system_drive_mount systemDrive) a p
  rw [hfun, foldl_applySat _ _ _ (by simp [CleanAcc.init]) (by simp [CleanAcc.init])]
  simp [CleanAcc.init, satAdd64]

/-! ### Per-path case inventories -/

lemma included_path_delta_cases (fs : Fs) (d : CategoryDef) (cutoff : Option Int)
    (q : String) :
    (is_within_roots fs d q = false ∧
      included_path_delta fs d cutoff q =
        ⟨none, [⟨q, "Path is outside cleanup scope."⟩], []⟩) ∨
    (is_within_roots fs d q = true ∧ ∃ err, fs.stat q = .error err ∧
      included_path_delta fs d cutoff q = ⟨none, [⟨q, err⟩], []⟩) ∨
    (is_within_roots fs d q = true ∧ ∃ meta, fs.stat q = .ok meta ∧ meta.isDir = true ∧
      included_path_delta fs d cutoff q = ⟨none, [⟨q, "Path is a directory."⟩], []⟩) ∨
    (is_within_roots fs d q = true ∧ ∃ meta, fs.stat q = .ok meta ∧ meta.isDir = false ∧
      matches_cutoff meta cutoff = false ∧
      included_path_delta fs d cutoff q = ⟨none, [], []⟩) ∨
    (is_within_roots fs d q = true ∧ ∃ meta err, fs.stat q = .ok meta ∧ meta.isDir = false ∧
      matches_cutoff meta cutoff = true ∧ fs.remove_file q = some err ∧
      included_path_delta fs d cutoff q = ⟨none, [⟨q, err⟩], [⟨.file, q, some err⟩]⟩) ∨
    (is_within_roots fs d q = true ∧ ∃ meta, fs.stat q = .ok meta ∧ meta.isDir = false ∧
      matches_cutoff meta cutoff = true ∧ fs.remove_file q = none ∧
      included_path_delta fs d cutoff q =
        ⟨some (meta.len, 1), [], [⟨.file, q, none⟩]⟩) := by
  cases hw : is_within_roots fs d q with
  | false => exact Or.inl ⟨rfl, by simp [included_path_delta, hw]⟩
  | true =>
    cases hs : fs.stat q with
    | error err =>
      exact Or.inr (Or.inl ⟨rfl, err, rfl, by simp [included_path_delta, hw, hs]⟩)
    | ok meta =>
      cases hd : meta.isDir with
      | true =>
        exact Or.inr (Or.inr (Or.inl ⟨rfl, meta, rfl, hd,
          by simp [included_path_delta, hw, hs, hd]⟩))
      | false =>
        cases hm : matches_cutoff meta cutoff with
        | false =>
          exact Or.inr (Or.inr (Or.inr (Or.inl ⟨rfl, meta, rfl, hd, hm,
            by simp [included_path_delta, hw, hs, hd, hm]⟩)))
        | true =>
          cases hr : fs.remove_file q with
          | some err =>
            exact Or.inr (Or.inr (Or.inr (Or.inr (Or.inl ⟨rfl, meta, err, rfl, hd, hm, rfl,
              by simp [included_path_delta, hw, hs, hd, hm, hr]⟩))))
          | none =>
            exact Or.inr (Or.inr (Or.inr (Or.inr (Or.inr ⟨rfl, meta, rfl, hd, hm, rfl,
              by simp [included_path_delta, hw, hs, hd, hm, hr]⟩))))

lemma delete_file_delta_cases (fs : Fs) (p : String) (cutoff : Option Int)
    (excluded : List String) :
    (normalize_path_str p ∈ excluded ∧ delete_file_delta fs p cutoff excluded = ⟨none, [], []⟩) ∨
    (normalize_path_str p ∉ excluded ∧ ∃ err, fs.stat p = .error err ∧
      delete_file_delta fs p cutoff excluded = ⟨none, [⟨p, err⟩], []⟩) ∨
    (normalize_path_str p ∉ excluded ∧ ∃ meta, fs.stat p = .ok meta ∧
      matches_cutoff meta cutoff = false ∧
      delete_file_delta fs p cutoff excluded = ⟨none, [], []⟩) ∨
    (normalize_path_str p ∉ excluded ∧ ∃ meta err, fs.stat p = .ok meta ∧
      matches_cutoff meta cutoff = true ∧ fs.remove_file p = some err ∧
      delete_file_delta fs p cutoff excluded = ⟨none, [⟨p, err⟩], [⟨.file, p, some err⟩]⟩) ∨
    (normalize_path_str p ∉ excluded ∧ ∃ meta, fs.stat p = .ok meta ∧
      matches_cutoff meta cutoff = true ∧ fs.remove_file p = none ∧
      delete_file_delta fs p cutoff excluded =
        ⟨some (meta.len, 1), [], [⟨.file, p, none⟩]⟩) := by
  by_cases hx : normalize_path_str p ∈ excluded
  · exact Or.inl ⟨hx, by simp [delete_file_delta, hx]⟩
  · cases hs : fs.stat p with
    | error err =>
      exact Or.inr (Or.inl ⟨hx, err, rfl, by simp [delete_file_delta, hx, hs]⟩)
    | ok meta =>
      cases hm : matches_cutoff meta cutoff with
      | false =>
        exact Or.inr (Or.inr (Or.inl ⟨hx, meta, rfl, hm,
          by simp [delete_file_delta, hx, hs, hm]⟩))
      | true =>
        cases hr : fs.remove_file p with
        | some err =>
          exact Or.inr (Or.inr (Or.inr (Or.inl ⟨hx, meta, err, rfl, hm, rfl,
            by simp [delete_file_delta, hx, hs, hm, hr]⟩)))
        | none =>
          exact Or.inr (Or.inr (Or.inr (Or.inr ⟨hx, meta, rfl, hm, rfl,
            by simp [delete_file_delta, hx, hs, hm, hr]⟩)))

lemma large_item_delta_cases (fs : Fs) (root : String) (q : String) :
    (is_within_root fs root q = false ∧
      large_item_delta fs root q = ⟨none, [⟨q, "Path is outside scan scope."⟩], []⟩) ∨
    (is_within_root fs root q = true ∧ path_eq_ignore_case q root = true ∧
      large_item_delta fs root q = ⟨none, [⟨q, "Refusing to delete drive root."⟩], []⟩) ∨
    (is_within_root fs root q = true ∧ path_eq_ignore_case q root = false ∧
      ∃ err, fs.stat q = .error err ∧
      large_item_delta fs root q = ⟨none, [⟨q, err⟩], []⟩) ∨
    (is_within_root fs root q = true ∧ path_eq_ignore_case q root = false ∧
      ∃ meta err, fs.stat q = .ok meta ∧ meta.isDir = true ∧
      fs.remove_dir_all q = some err ∧
      large_item_delta fs root q = ⟨none, [⟨q, err⟩], [⟨.dirAll, q, some err⟩]⟩) ∨
    (is_within_root fs root q = true ∧ path_eq_ignore_case q root = false ∧
      ∃ meta, fs.stat q = .ok meta ∧ meta.isDir = true ∧ fs.remove_dir_all q = none ∧
      large_item_delta fs root q = ⟨some (dir_metrics fs q), [], [⟨.dirAll, q, none⟩]⟩) ∨
    (is_within_root fs root q = true ∧ path_eq_ignore_case q root = false ∧
      ∃ meta err, fs.stat q = .ok meta ∧ meta.isDir = false ∧
      fs.remove_file q = some err ∧
      large_item_delta fs root q = ⟨none, [⟨q, err⟩], [⟨.file, q, some err⟩]⟩) ∨
    (is_within_root fs root q = true ∧ path_eq_ignore_case q root = false ∧
      ∃ meta, fs.stat q = .ok meta ∧ meta.isDir = false ∧ fs.remove_file q = none ∧
      large_item_delta fs root q = ⟨some (meta.len, 1), [], [⟨.file, q, none⟩]⟩) := by
  cases hw : is_within_root fs root q with
  | false => exact Or.inl ⟨rfl, by simp [large_item_delta, hw]⟩
  | true =>
    cases heq : path_eq_ignore_case q root with
    | true =>
      exact Or.inr (Or.inl ⟨rfl, rfl, by simp [large_item_delta, hw, heq]⟩)
    | false =>
      cases hs : fs.stat q with
      | error err =>
        exact Or.inr (Or.inr (Or.inl ⟨rfl, rfl, err, rfl,
          by simp [large_item_delta, hw, heq, hs]⟩))
      | ok meta =>
        cases hd : meta.isDir with
        | true =>
          cases hr : fs.remove_dir_all q with
          | some err =>
            exact Or.inr (Or.inr (Or.inr (Or.inl ⟨rfl, rfl, meta, err, rfl, hd, rfl,
              by simp [large_item_delta, hw, heq, hs, hd, hr]⟩)))
          | none =>
            exact Or.inr (Or.inr (Or.inr (Or.inr (Or.inl ⟨rfl, rfl, meta, rfl, hd, rfl,
              by simp [large_item_delta, hw, heq, hs, hd, hr]⟩))))
        | false =>
          cases hr : fs.remove_file q with
          | some err =>
            exact Or.inr (Or.inr (Or.inr (Or.inr (Or.inr (Or.inl
              ⟨rfl, rfl, meta, err, rfl, hd, rfl,
               by simp [large_item_delta, hw, heq, hs, hd, hr]⟩)))))
          | none =>
            exact Or.inr (Or.inr (Or.inr (Or.inr (Or.inr (Or.inr
              ⟨rfl, rfl, meta, rfl, hd, rfl,
               by simp [large_item_delta, hw, heq, hs, hd, hr]⟩)))))

/-! ### Derived per-path facts -/

lemma included_delta_scope_shape (fs : Fs) (d : CategoryDef) (cutoff : Option Int)
    {p : String} (h : is_within_roots fs d p = false) :
    included_path_delta fs d cutoff p =
      ⟨none, [⟨p, "Path is outside cleanup scope."⟩], []⟩ := by
  simp [included_path_delta, h]

lemma included_delta_dir_shape (fs : Fs) (d : CategoryDef) (cutoff : Option Int)
    {p : String} {meta : Metadata} (h1 : is_within_roots fs d p = true)
    (h2 : fs.stat p = .ok meta) (h3 : meta.isDir = true) :
    included_path_delta fs d cutoff p = ⟨none, [⟨p, "Path is a directory."⟩], []⟩ := by
  simp [included_path_delta, h1, h2, h3]

lemma included_delta_skip_shape (fs : Fs) (d : CategoryDef) (cutoff : Option Int)
    {p : String} {meta : Metadata} (h1 : is_within_roots fs d p = true)
    (h2 : fs.stat p = .ok meta) (h3 : meta.isDir = false)
    (h4 : matches_cutoff meta cutoff = false) :
    included_path_delta fs d cutoff p = ⟨none, [], []⟩ := by
  simp [included_path_delta, h1, h2, h3, h4]

lemma included_delta_fail_path (fs : Fs) (d : CategoryDef) (cutoff : Option Int)
    (q : String) : ∀ e ∈ (included_path_delta fs d cutoff q).fails, e.path = q := by
  rcases included_path_delta_cases fs d cutoff q with
    ⟨_, h⟩ | ⟨_, _, _, h⟩ | ⟨_, _, _, _, h⟩ | ⟨_, _, _, _, _, h⟩ |
    ⟨_, _, _, _, _, _, _, h⟩ | ⟨_, _, _, _, _, _, h⟩ <;>
  · rw [h]
    intro e he
    simp at he
    try simp [he]

lemma included_delta_call_path (fs : Fs) (d : CategoryDef) (cutoff : Option Int)
    (q : String) : ∀ c ∈ (included_path_delta fs d cutoff q).calls, c.path = q := by
  rcases included_path_delta_cases fs d cutoff q with
    ⟨_, h⟩ | ⟨_, _, _, h⟩ | ⟨_, _, _, _, h⟩ | ⟨_, _, _, _, _, h⟩ |
    ⟨_, _, _, _, _, _, _, h⟩ | ⟨_, _, _, _, _, _, h⟩ <;>
  · rw [h]
    intro c hc
    simp at hc
    try simp [hc]

lemma included_delta_call_within (fs : Fs) (d : CategoryDef) (cutoff : Option Int)
    (q : String) :
    ∀ c ∈ (included_path_delta fs d cutoff q).calls, is_within_roots fs d q = true := by
  rcases included_path_delta_cases fs d cutoff q with
    ⟨_, h⟩ | ⟨hw, _, _, h⟩ | ⟨hw, _, _, _, h⟩ | ⟨hw, _, _, _, _, h⟩ |
    ⟨hw, _, _, _, _, _, _, h⟩ | ⟨hw, _, _, _, _, _, h⟩ <;>
  · rw [h]
    intro c hc
    simp at hc
    try assumption

lemma clean_included_calls_origin (fs : Fs) (clock : Clock) (d : CategoryDef)
    (incl : List String) {c : RemoveCall}
    (hc : c ∈ (clean_included_paths fs clock d incl).2) :
    ∃ q ∈ dedupByKey incl [],
      c ∈ (included_path_delta fs d (cutoff_time clock d.kind) q).calls := by
  rw [clean_included_paths_spec] at hc
  exact List.mem_flatMap.1 hc

lemma clean_included_fails_origin (fs : Fs) (clock : Clock) (d : CategoryDef)
    (incl : List String) {e : CleanupError}
    (he : e ∈ (clean_included_paths fs clock d incl).1.failed) :
    ∃ q ∈ dedupByKey incl [],
      e ∈ (included_path_delta fs d (cutoff_time clock d.kind) q).fails := by
  rw [clean_included_paths_spec] at he
  exact List.mem_flatMap.1 he

/-- C7: included-path validation — duplicates are suppressed by normalised
key (running the clean on the deduplicated list is identical, and the
processed keys are pairwise distinct); for every processed path: outside
all roots yields the failure "Path is outside cleanup scope." and no
removal call with that key; a directory within scope yields "Path is a
directory." and no removal call; a file failing the time filter is
silently skipped — no failure entry and no removal call with its key. -/
theorem C7_included_path_validation (fs : Fs) (clock : Clock) (d : CategoryDef)
    (included : List String) :
    clean_included_paths fs clock d included =
      clean_included_paths fs clock d (dedupByKey included []) ∧
    ((dedupByKey included []).map normalize_path_str).Nodup ∧
    (∀ p ∈ dedupByKey included [],
      (is_within_roots fs d p = false →
        (⟨p, "Path is outside cleanup scope."⟩ : CleanupError) ∈
          (clean_included_paths fs clock d included).1.failed ∧
        ∀ c ∈ (clean_included_paths fs clock d included).2,
          normalize_path_str c.path ≠ normalize_path_str p) ∧
      (∀ meta : Metadata, is_within_roots fs d p = true → fs.stat p = .ok meta →
        meta.isDir = true →
        (⟨p, "Path is a directory."⟩ : CleanupError) ∈
          (clean_included_paths fs clock d included).1.failed ∧
        ∀ c ∈ (clean_included_paths fs clock d included).2,
          normalize_path_str c.path ≠ normalize_path_str p) ∧
      (∀ meta : Metadata, is_within_roots fs d p = true → fs.stat p = .ok meta →
        meta.isDir = false → matches_cutoff meta (cutoff_time clock d.kind) = false →
        (∀ e ∈ (clean_included_paths fs clock d included).1.failed,
          normalize_path_str e.path ≠ normalize_path_str p) ∧
        ∀ c ∈ (clean_included_paths fs clock d included).2,
          normalize_path_str c.path ≠ normalize_path_str p)) := by
  have hinj := List.inj_on_of_nodup_map (dedupByKey_keys_nodup included [])
  have hnocall : ∀ (p : String), p ∈ dedupByKey included [] →
      (included_path_delta fs d (cutoff_time clock d.kind) p).calls = [] →
      ∀ c ∈ (clean_included_paths fs clock d included).2,
        normalize_path_str c.path ≠ normalize_path_str p := by
    intro p hp hempty c hc hkey
    rcases clean_included_calls_origin fs clock d included hc with ⟨q, hq, hcall⟩
    have hpath := included_delta_call_path fs d (cutoff_time clock d.kind) q c hcall
    have : q = p := hinj hq hp (by rw [← hpath]; exact hkey)
    subst this
    rw [hempty] at hcall
    exact absurd hcall (List.not_mem_nil c)
  refine ⟨?_, dedupByKey_keys_nodup included [], ?_⟩
  · rw [clean_included_paths_spec, clean_included_paths_spec, dedupByKey_idem]
  · intro p hp
    refine ⟨?_, ?_, ?_⟩
    · intro hw
      have hshape := included_delta_scope_shape fs d (cutoff_time clock d.kind) hw
      constructor
      · rw [clean_included_paths_spec]
        exact List.mem_flatMap.2 ⟨p, hp, by rw [hshape]; simp⟩
      · exact hnocall p hp (by rw [hshape])
    · intro meta hw hs hd
      have hshape := included_delta_dir_shape fs d (cutoff_time clock d.kind) hw hs hd
      constructor
      · rw [clean_included_paths_spec]
        exact List.mem_flatMap.2 ⟨p, hp, by rw [hshape]; simp⟩
      · exact hnocall p hp (by rw [hshape])
    · intro meta hw hs hd hm
      have hshape := included_delta_skip_shape fs d (cutoff_time clock d.kind) hw hs hd hm
      constructor
      · intro e he hkey
        rcases clean_included_fails_origin fs clock d included he with ⟨q, hq, hfail⟩
        have hpath := included_delta_fail_path fs d (cutoff_time clock d.kind) q e hfail
        have : q = p := hinj hq hp (by rw [← hpath]; exact hkey)
        subst this
        rw [hshape] at hfail
        exact absurd hfail (List.not_mem_nil e)
      · exact hnocall p hp (by rw [hshape])

/-- Witness for C7: a concrete include list with an out-of-scope path, an
in-scope directory, a too-new file and a duplicate key. -/
theorem C7_included_path_validation_witness :
    clean_included_paths fsC7 clockC7 dC7 inclC7 =
      clean_included_paths fsC7 clockC7 dC7 (dedupByKey inclC7 []) ∧
    (⟨"d:\\out", "Path is outside cleanup scope."⟩ : CleanupError) ∈
      (clean_included_paths fsC7 clockC7 dC7 inclC7).1.failed ∧
    (⟨"c:\\t\\sub", "Path is a directory."⟩ : CleanupError) ∈
      (clean_included_paths fsC7 clockC7 dC7 inclC7).1.failed ∧
    ∀ e ∈ (clean_included_paths fsC7 clockC7 dC7 inclC7).1.failed,
      normalize_path_str e.path ≠ normalize_path_str "c:\\t\\old.txt" := by
  have h := C7_included_path_validation fsC7 clockC7 dC7 inclC7
  refine ⟨h.1, ?_, ?_, ?_⟩
  · exact ((h.2.2 "d:\\out" (by decide)).1 (by decide)).1
  · exact ((h.2.2 "c:\\t\\sub" (by decide)).2.1 ⟨true, 0, none⟩ (by decide) (by decide)
      rfl).1
  · exact ((h.2.2 "c:\\t\\old.txt" (by decide)).2.2 ⟨false, 5, some 999999⟩ (by decide)
      (by decide) rfl (by decide)).1

/-! ### Walk-and-delete characterisation -/

lemma mem_insertDirDesc (x y : String) (l : List String) :
    y ∈ insertDirDesc x l ↔ y = x ∨ y ∈ l := by
  induction l with
  | nil => simp [insertDirDesc]
  | cons z zs ih =>
    by_cases h : components_count z < components_count x
    · simp [insertDirDesc, h]
    · simp only [insertDirDesc, h, if_false, List.mem_cons, ih]
      tauto

lemma mem_sortDirsDesc (y : String) (l : List String) :
    y ∈ sortDirsDesc l ↔ y ∈ l := by
  induction l with
  | nil => simp [sortDirsDesc]
  | cons x xs ih => simp [sortDirsDesc, mem_insertDirDesc, ih]

lemma walk_fold_split (fs : Fs) (cutoff : Option Int) (excluded : List String)
    (cleanupDirs : Bool) (entries : List FsEntry) (acc : CleanAcc) (dirs : List String) :
    entries.foldl
      (fun (st : CleanAcc × List String) e =>
        if e.isDirType then (st.1, if cleanupDirs then st.2 ++ [e.path] else st.2)
        else if e.isFileType then (delete_file fs e.path cutoff excluded st.1, st.2)
        else st)
      (acc, dirs)
    = (((entries.filter (fun e => ! e.isDirType && e.isFileType)).map (fun e => e.path)).foldl
         (fun a p => delete_file fs p cutoff excluded a) acc,
       dirs ++ (if cleanupDirs then
         (entries.filter (fun e => e.isDirType)).map (fun e => e.path) else [])) := by
  induction entries generalizing acc dirs with
  | nil => simp
  | cons e rest ih =>
    cases hd : e.isDirType with
    | true =>
      simp only [List.foldl_cons, List.filter_cons, hd, if_true, Bool.not_true,
        Bool.false_and, Bool.false_eq_true, if_false, ih]
      cases cleanupDirs <;> simp [List.append_assoc]
    | false =>
      cases hf : e.isFileType with
      | true => simp [hd, hf, ih]
      | false => simp [hd, hf, ih]

lemma clean_category_roots_spec (fs : Fs) (cutoff : Option Int) (excluded : List String)
    (cleanupDirs : Bool) :
    ∀ (roots : List String) (acc : CleanAcc) (dirs : List String),
    clean_category_roots fs cutoff excluded cleanupDirs roots acc dirs =
      ((walk_file_attempts fs roots).foldl
         (fun a p => delete_file fs p cutoff excluded a) acc,
       dirs ++ collect_dirs fs cleanupDirs roots) := by
  intro roots
  induction roots with
  | nil => intro acc dirs; simp [clean_category_roots, walk_file_attempts, collect_dirs]
  | cons root rest ih =>
    intro acc dirs
    cases hex : fs.path_exists root with
    | false =>
      simp only [clean_category_roots, hex, Bool.not_false, if_true, ih]
      cases cleanupDirs <;> simp [walk_file_attempts, collect_dirs, hex]
    | true =>
      cases hfile : fs.is_file root with
      | true =>
        simp only [clean_category_roots, hex, hfile, Bool.not_true, Bool.false_eq_true,
          if_false, if_true, ih]
        cases cleanupDirs <;> simp [walk_file_attempts, collect_dirs, hex, hfile]
      | false =>
        simp only [clean_category_roots, hex, hfile, Bool.not_true, Bool.false_eq_true,
          if_false, Bool.not_false, walk_fold_split, ih]
        cases cleanupDirs <;>
          simp [walk_file_attempts, collect_dirs, hex, hfile, List.foldl_append,
            List.append_assoc]

lemma clean_category_walk_spec (fs : Fs) (rb : RecycleBinEnv) (clock : Clock)
    (d : CategoryDef) (excluded : List String) (stats : Option CategoryStats)
    (h1 : (d.id == "recycle_bin" && excluded.isEmpty) = false)
    (h2 : (excluded.isEmpty && should_fast_clear d) = false) :
    clean_category fs rb clock d excluded stats =
      (⟨((walk_file_attempts fs d.roots).map fun p =>
           (delete_file_delta fs p (cutoff_time clock d.kind) excluded).creditBytes).sum,
        ((walk_file_attempts fs d.roots).map fun p =>
           (delete_file_delta fs p (cutoff_time clock d.kind) excluded).creditCount).sum,
        (walk_file_attempts fs d.roots).flatMap fun p =>
          (delete_file_delta fs p (cutoff_time clock d.kind) excluded).fails⟩,
       ((walk_file_attempts fs d.roots).flatMap fun p =>
          (delete_file_delta fs p (cutoff_time clock d.kind) excluded).calls) ++
         (if d.cleanup_dirs && ! (collect_dirs fs d.cleanup_dirs d.roots).isEmpty then
            (sortDirsDesc (collect_dirs fs d.cleanup_dirs d.roots)).map
              (fun dr => ⟨.dir, dr, fs.remove_dir dr⟩)
          else [])) := by
  have hfun : (fun (a : CleanAcc) (p : String) =>
      delete_file fs p (cutoff_time clock d.kind) excluded a) =
      fun a p => applyPlain a (delete_file_delta fs p (cutoff_time clock d.kind) excluded) :=
    funext fun a => funext fun p =>
      delete_file_eq fs p (cutoff_time clock d.kind) excluded a
  simp only [clean_category, h1, Bool.false_eq_true, if_false, h2,
    clean_category_roots_spec, List.nil_append]
  rw [hfun, foldl_applyPlain]
  cases hpass : d.cleanup_dirs && ! (collect_dirs fs d.cleanup_dirs d.roots).isEmpty with
  | true => simp [hpass, remove_dirs_pass, CleanAcc.init]
  | false => simp [hpass, CleanAcc.init]

/-! ### Fast-clear, recycle-bin dispatch and catalog-loop characterisations -/

lemma fast_fold_spec (fs : Fs) :
    ∀ (roots : List String) (f0 : List CleanupError) (ok0 : Bool) (c0 : List RemoveCall),
    roots.foldl
      (fun (st : (List CleanupError × Bool) × List RemoveCall) root =>
        if ! fs.path_exists root then st
        else if fs.is_file root then
          match fs.remove_file root with
          | some msg => ((st.1.1 ++ [⟨root, msg⟩], false), st.2 ++ [⟨.file, root, some msg⟩])
          | none => (st.1, st.2 ++ [⟨.file, root, none⟩])
        else
          match fs.remove_dir_all root with
          | some msg =>
            ((st.1.1 ++ [⟨root, msg⟩], false), st.2 ++ [⟨.dirAll, root, some msg⟩])
          | none => (st.1, st.2 ++ [⟨.dirAll, root, none⟩]))
      ((f0, ok0), c0)
    = ((f0 ++ (existing_roots fs roots).filterMap
          (fun r => (fast_dir_outcome fs r).map (fun msg => (⟨r, msg⟩ : CleanupError))),
        ok0 && (existing_roots fs roots).all (fun r => (fast_dir_outcome fs r).isNone)),
       c0 ++ (existing_roots fs roots).map
         (fun r =>
           (⟨if fs.is_file r then .file else .dirAll, r, fast_dir_outcome fs r⟩ :
             RemoveCall))) := by
  intro roots
  induction roots with
  | nil => intro f0 ok0 c0; simp [existing_roots]
  | cons root rest ih =>
    intro f0 ok0 c0
    cases hex : fs.path_exists root with
    | false =>
      simp only [List.foldl_cons, hex, Bool.not_false, if_true, ih]
      simp [existing_roots, hex]
    | true =>
      cases hfile : fs.is_file root with
      | true =>
        cases hr : fs.remove_file root with
        | some msg =>
          simp only [List.foldl_cons, hex, hfile, Bool.not_true, Bool.false_eq_true,
            if_false, if_true, hr, ih]
          simp [existing_roots, hex, hfile, fast_dir_outcome, hr, List.append_assoc]
        | none =>
          simp only [List.foldl_cons, hex, hfile, Bool.not_true, Bool.false_eq_true,
            if_false, if_true, hr, ih]
          simp [existing_roots, hex, hfile, fast_dir_outcome, hr, List.append_assoc]
      | false =>
        cases hr : fs.remove_dir_all root with
        | some msg =>
          simp only [List.foldl_cons, hex, hfile, Bool.not_true, Bool.false_eq_true,
            if_false, ih]
          simp [existing_roots, hex, hfile, fast_dir_outcome, hr, List.append_assoc]
        | none =>
          simp only [List.foldl_cons, hex, hfile, Bool.not_true, Bool.false_eq_true,
            if_false, ih]
          simp [existing_roots, hex, hfile, fast_dir_outcome, hr, List.append_assoc]

lemma clean_category_fast_dirs_spec (fs : Fs) (d : CategoryDef)
    (stats : Option CategoryStats) :
    clean_category_fast_dirs fs d stats =
      (⟨(if (existing_roots fs d.roots).all (fun r => (fast_dir_outcome fs r).isNone) then
           match stats with
           | some v => (v.size_bytes, v.file_count)
           | none => ((0 : Nat), (0 : Nat))
         else (0, 0)).1,
        (if (existing_roots fs d.roots).all (fun r => (fast_dir_outcome fs r).isNone) then
           match stats with
           | some v => (v.size_bytes, v.file_count)
           | none => ((0 : Nat), (0 : Nat))
         else (0, 0)).2,
        (existing_roots fs d.roots).filterMap
          (fun r => (fast_dir_outcome fs r).map (fun msg => (⟨r, msg⟩ : CleanupError)))⟩,
       (existing_roots fs d.roots).map
         (fun r =>
           (⟨if fs.is_file r then .file else .dirAll, r, fast_dir_outcome fs r⟩ :
             RemoveCall))) := by
  simp only [clean_category_fast_dirs, fast_fold_spec]
  simp

lemma clean_category_recycle (fs : Fs) (rb : RecycleBinEnv) (clock : Clock)
    (d : CategoryDef) (stats : Option CategoryStats) (h : d.id = "recycle_bin") :
    clean_category fs rb clock d [] stats = (clean_recycle_bin_fast rb, []) := by
  simp [clean_category, h]

lemma mergeResults_zero (st : CleanupResult × List RemoveCall) :
    mergeResults st (⟨0, 0, []⟩, []) = st := by
  simp [mergeResults]

lemma clean_categories_step_eq (fs : Fs) (rb : RecycleBinEnv) (clock : Clock)
    (request : CleanRequest) (st : CleanupResult × List RemoveCall) (d : CategoryDef) :
    clean_categories_step fs rb clock request st d =
      mergeResults st (per_category_clean fs rb clock request d) := by
  unfold clean_categories_step per_category_clean
  cases hinc : ((lookupBy request.included_paths d.id).getD []).isEmpty with
  | false => simp [hinc]
  | true =>
    cases hid : request.ids.contains d.id with
    | false => simp [hinc, hid, mergeResults_zero]
    | true => simp [hinc, hid]

lemma foldl_mergeResults (g : CategoryDef → CleanupResult × List RemoveCall) :
    ∀ (cats : List CategoryDef) (st : CleanupResult × List RemoveCall),
    cats.foldl (fun st d => mergeResults st (g d)) st =
      (⟨st.1.deleted_bytes + (cats.map fun d => (g d).1.deleted_bytes).sum,
        st.1.deleted_count + (cats.map fun d => (g d).1.deleted_count).sum,
        st.1.failed ++ cats.flatMap fun d => (g d).1.failed⟩,
       st.2 ++ cats.flatMap fun d => (g d).2) := by
  intro cats
  induction cats with
  | nil => intro st; simp
  | cons d rest ih =>
    intro st
    simp only [List.foldl_cons]
    rw [ih]
    simp [mergeResults, List.append_assoc, Nat.add_assoc]

lemma clean_categories_sync_spec (fs : Fs) (rb : RecycleBinEnv) (clock : Clock)
    (cats : List CategoryDef) (request : CleanRequest) :
    clean_categories_sync fs rb clock cats request =
      (⟨(cats.map fun d => (per_category_clean fs rb clock request d).1.deleted_bytes).sum,
        (cats.map fun d => (per_category_clean fs rb clock request d).1.deleted_count).sum,
        cats.flatMap fun d => (per_category_clean fs rb clock request d).1.failed⟩,
       cats.flatMap fun d => (per_category_clean fs rb clock request d).2) := by
  unfold clean_categories_sync
  have hstep : clean_categories_step fs rb clock request =
      fun st d => mergeResults st (per_category_clean fs rb clock request d) :=
    funext fun st => funext fun d => clean_categories_step_eq fs rb clock request st d
  rw [hstep, foldl_mergeResults]
  simp

lemma clean_categories_sync_singleton (fs : Fs) (rb : RecycleBinEnv) (clock : Clock)
    (request : CleanRequest) (d : CategoryDef) :
    clean_categories_sync fs rb clock [d] request =
      per_category_clean fs rb clock request d := by
  rw [clean_categories_sync_spec]
  simp

/-! ### Accounting facts per delta -/

lemma nodup_of_length_le_one {α : Type} {l : List α} (h : l.length ≤ 1) : l.Nodup := by
  cases l with
  | nil => exact List.nodup_nil
  | cons a t =>
    cases t with
    | nil => simp
    | cons b t2 => simp at h

lemma flatMap_fails_nodup {l : List String} (hl : l.Nodup) (f : String → List CleanupError)
    (hlen : ∀ p, (f p).length ≤ 1) (hpath : ∀ p, ∀ e ∈ f p, e.path = p) :
    ((l.flatMap f).map CleanupError.path).Nodup := by
  induction l with
  | nil => simp
  | cons p rest ih =>
    simp only [List.flatMap_cons, List.map_append, List.nodup_append]
    simp only [List.nodup_cons] at hl
    refine ⟨(nodup_of_length_le_one (by simp [hlen p])), ih hl.2, ?_⟩
    intro x hx hx2
    rcases List.mem_map.1 hx with ⟨e, he, hpe⟩
    rcases List.mem_map.1 hx2 with ⟨e2, he2, hpe2⟩
    rcases List.mem_flatMap.1 he2 with ⟨q, hq, heq⟩
    have h1 : x = p := by rw [← hpe]; exact hpath p e he
    have h2 : x = q := by rw [← hpe2]; exact hpath q e2 heq
    exact hl.1 (h1 ▸ h2 ▸ hq)

lemma included_delta_fails_len (fs : Fs) (d : CategoryDef) (cutoff : Option Int)
    (q : String) : (included_path_delta fs d cutoff q).fails.length ≤ 1 := by
  rcases included_path_delta_cases fs d cutoff q with
    ⟨_, h⟩ | ⟨_, _, _, h⟩ | ⟨_, _, _, _, h⟩ | ⟨_, _, _, _, _, h⟩ |
    ⟨_, _, _, _, _, _, _, h⟩ | ⟨_, _, _, _, _, _, h⟩ <;> simp [h]

lemma included_delta_credit_success (fs : Fs) (d : CategoryDef) (cutoff : Option Int)
    (q : String) (h : (included_path_delta fs d cutoff q).credit ≠ none) :
    fs.remove_file q = none ∧
    (included_path_delta fs d cutoff q).calls = [⟨.file, q, none⟩] ∧
    (included_path_delta fs d cutoff q).fails = [] := by
  rcases included_path_delta_cases fs d cutoff q with
    ⟨_, hs⟩ | ⟨_, _, _, hs⟩ | ⟨_, _, _, _, hs⟩ | ⟨_, _, _, _, _, hs⟩ |
    ⟨_, _, _, _, _, _, _, hs⟩ | ⟨_, _, _, _, _, hr, hs⟩ <;> rw [hs] at h ⊢ <;>
    first
    | exact absurd rfl h
    | exact ⟨hr, rfl, rfl⟩

lemma included_delta_fail_no_credit (fs : Fs) (d : CategoryDef) (cutoff : Option Int)
    (q : String) (h : (included_path_delta fs d cutoff q).fails ≠ []) :
    (included_path_delta fs d cutoff q).credit = none ∧
    (included_path_delta fs d cutoff q).fails.length = 1 := by
  rcases included_path_delta_cases fs d cutoff q with
    ⟨_, hs⟩ | ⟨_, _, _, hs⟩ | ⟨_, _, _, _, hs⟩ | ⟨_, _, _, _, _, hs⟩ |
    ⟨_, _, _, _, _, _, _, hs⟩ | ⟨_, _, _, _, _, _, hs⟩ <;> rw [hs] at h ⊢ <;>
    first
    | exact absurd rfl h
    | exact ⟨rfl, rfl⟩

lemma delete_delta_fail_path (fs : Fs) (p : String) (cutoff : Option Int)
    (excluded : List String) :
    ∀ e ∈ (delete_file_delta fs p cutoff excluded).fails, e.path = p := by
  rcases delete_file_delta_cases fs p cutoff excluded with
    ⟨_, h⟩ | ⟨_, _, _, h⟩ | ⟨_, _, _, _, h⟩ | ⟨_, _, _, _, _, _, h⟩ |
    ⟨_, _, _, _, _, h⟩ <;>
  · rw [h]
    intro e he
    simp at he
    try simp [he]

lemma delete_delta_fails_len (fs : Fs) (p : String) (cutoff : Option Int)
    (excluded : List String) : (delete_file_delta fs p cutoff excluded).fails.length ≤ 1 := by
  rcases delete_file_delta_cases fs p cutoff excluded with
    ⟨_, h⟩ | ⟨_, _, _, h⟩ | ⟨_, _, _, _, h⟩ | ⟨_, _, _, _, _, _, h⟩ |
    ⟨_, _, _, _, _, h⟩ <;> simp [h]

lemma delete_delta_credit_success (fs : Fs) (p : String) (cutoff : Option Int)
    (excluded : List String) (h : (delete_file_delta fs p cutoff excluded).credit ≠ none) :
    fs.remove_file p = none ∧
    (delete_file_delta fs p cutoff excluded).calls = [⟨.file, p, none⟩] ∧
    (delete_file_delta fs p cutoff excluded).fails = [] := by
  rcases delete_file_delta_cases fs p cutoff excluded with
    ⟨_, hs⟩ | ⟨_, _, _, hs⟩ | ⟨_, _, _, _, hs⟩ | ⟨_, _, _, _, _, _, hs⟩ |
    ⟨_, _, _, _, hr, hs⟩ <;> rw [hs] at h ⊢ <;>
    first
    | exact absurd rfl h
    | exact ⟨hr, rfl, rfl⟩

lemma delete_delta_fail_no_credit (fs : Fs) (p : String) (cutoff : Option Int)
    (excluded : List String) (h : (delete_file_delta fs p cutoff excluded).fails ≠ []) :
    (delete_file_delta fs p cutoff excluded).credit = none ∧
    (delete_file_delta fs p cutoff excluded).fails.length = 1 := by
  rcases delete_file_delta_cases fs p cutoff excluded with
    ⟨_, hs⟩ | ⟨_, _, _, hs⟩ | ⟨_, _, _, _, hs⟩ | ⟨_, _, _, _, _, _, hs⟩ |
    ⟨_, _, _, _, _, hs⟩ <;> rw [hs] at h ⊢ <;>
    first
    | exact absurd rfl h
    | exact ⟨rfl, rfl⟩

lemma large_delta_fail_path (fs : Fs) (root : String) (q : String) :
    ∀ e ∈ (large_item_delta fs root q).fails, e.path = q := by
  rcases large_item_delta_cases fs root q with
    ⟨_, h⟩ | ⟨_, _, h⟩ | ⟨_, _, _, _, h⟩ | ⟨_, _, _, _, _, _, _, h⟩ |
    ⟨_, _, _, _, _, _, h⟩ | ⟨_, _, _, _, _, _, _, h⟩ | ⟨_, _, _, _, _, _, h⟩ <;>
  · rw [h]
    intro e he
    simp at he
    try simp [he]

lemma large_delta_fails_len (fs : Fs) (root : String) (q : String) :
    (large_item_delta fs root q).fails.length ≤ 1 := by
  rcases large_item_delta_cases fs root q with
    ⟨_, h⟩ | ⟨_, _, h⟩ | ⟨_, _, _, _, h⟩ | ⟨_, _, _, _, _, _, _, h⟩ |
    ⟨_, _, _, _, _, _, h⟩ | ⟨_, _, _, _, _, _, _, h⟩ | ⟨_, _, _, _, _, _, h⟩ <;> simp [h]

lemma large_delta_credit_success (fs : Fs) (root : String) (q : String)
    (h : (large_item_delta fs root q).credit ≠ none) :
    (∃ k, (large_item_delta fs root q).calls = [⟨k, q, none⟩]) ∧
    (large_item_delta fs root q).fails = [] := by
  rcases large_item_delta_cases fs root q with
    ⟨_, hs⟩ | ⟨_, _, hs⟩ | ⟨_, _, _, _, hs⟩ | ⟨_, _, _, _, _, _, _, hs⟩ |
    ⟨_, _, _, _, _, _, hs⟩ | ⟨_, _, _, _, _, _, _, hs⟩ | ⟨_, _, _, _, _, _, hs⟩ <;>
    rw [hs] at h ⊢ <;>
    first
    | exact absurd rfl h
    | exact ⟨⟨_, rfl⟩, rfl⟩

lemma large_delta_fail_no_credit (fs : Fs) (root : String) (q : String)
    (h : (large_item_delta fs root q).fails ≠ []) :
    (large_item_delta fs root q).credit = none ∧
    (large_item_delta fs root q).fails.length = 1 := by
  rcases large_item_delta_cases fs root q with
    ⟨_, hs⟩ | ⟨_, _, hs⟩ | ⟨_, _, _, _, hs⟩ | ⟨_, _, _, _, _, _, _, hs⟩ |
    ⟨_, _, _, _, _, _, hs⟩ | ⟨_, _, _, _, _, _, _, hs⟩ | ⟨_, _, _, _, _, _, hs⟩ <;>
    rw [hs] at h ⊢ <;>
    first
    | exact absurd rfl h
    | exact ⟨rfl, rfl⟩

/-- C2 (amended): CleanupResult accounting — for the included-path branch,
the walk-and-delete branch and the ad-hoc cleaner, `deleted_bytes` and
`deleted_count` are exactly the sums of the per-path credits, a credit
arises only from a successful removal call, a failed per-path attempt
yields no credit and exactly one failure entry, the failure list is
exactly the concatenation of the per-path failure entries, and no path
appears twice in it.  Amendment: in the walk-and-delete branch this covers
the per-file deletion attempts; the trailing empty-directory pass
contributes no counters and no failure entries — its `remove_dir` failures
are silently discarded (the counterexample shows the claim as stated fails
there). -/
theorem C2_cleanup_result_accounting :
    (∀ (fs : Fs) (clock : Clock) (d : CategoryDef) (incl : List String),
      (clean_included_paths fs clock d incl).1.deleted_bytes =
        ((dedupByKey incl []).map fun p =>
          (included_path_delta fs d (cutoff_time clock d.kind) p).creditBytes).sum ∧
      (clean_included_paths fs clock d incl).1.deleted_count =
        ((dedupByKey incl []).map fun p =>
          (included_path_delta fs d (cutoff_time clock d.kind) p).creditCount).sum ∧
      (clean_included_paths fs clock d incl).1.failed =
        ((dedupByKey incl []).flatMap fun p =>
          (included_path_delta fs d (cutoff_time clock d.kind) p).fails) ∧
      ((clean_included_paths fs clock d incl).1.failed.map CleanupError.path).Nodup) ∧
    (∀ (fs : Fs) (d : CategoryDef) (cutoff : Option Int) (p : String),
      ((included_path_delta fs d cutoff p).credit ≠ none →
        fs.remove_file p = none ∧
        (included_path_delta fs d cutoff p).calls = [⟨.file, p, none⟩] ∧
        (included_path_delta fs d cutoff p).fails = []) ∧
      ((included_path_delta fs d cutoff p).fails ≠ [] →
        (included_path_delta fs d cutoff p).credit = none ∧
        (included_path_delta fs d cutoff p).fails.length = 1)) ∧
    (∀ (fs : Fs) (sysDrive : String) (paths : List String),
      (clean_large_items_sync fs sysDrive paths).1.deleted_bytes =
        min (((dedupByKey paths []).map fun p =>
          (large_item_delta fs (system_drive_mount sysDrive) p).creditBytes).sum) U64MAX ∧
      (clean_large_items_sync fs sysDrive paths).1.deleted_count =
        min (((dedupByKey paths []).map fun p =>
          (large_item_delta fs (system_drive_mount sysDrive) p).creditCount).sum) U64MAX ∧
      (clean_large_items_sync fs sysDrive paths).1.failed =
        ((dedupByKey paths []).flatMap fun p =>
          (large_item_delta fs (system_drive_mount sysDrive) p).fails) ∧
      ((clean_large_items_sync fs sysDrive paths).1.failed.map CleanupError.path).Nodup) ∧
    (∀ (fs : Fs) (root p : String),
      ((large_item_delta fs root p).credit ≠ none →
        (∃ k, (large_item_delta fs root p).calls = [⟨k, p, none⟩]) ∧
        (large_item_delta fs root p).fails = []) ∧
      ((large_item_delta fs root p).fails ≠ [] →
        (large_item_delta fs root p).credit = none ∧
        (large_item_delta fs root p).fails.length = 1)) ∧
    (∀ (fs : Fs) (rb : RecycleBinEnv) (clock : Clock) (d : CategoryDef)
      (excluded : List String) (stats : Option CategoryStats),
      (d.id == "recycle_bin" && excluded.isEmpty) = false →
      (excluded.isEmpty && should_fast_clear d) = false →
      (clean_category fs rb clock d excluded stats).1.deleted_bytes =
        ((walk_file_attempts fs d.roots).map fun p =>
          (delete_file_delta fs p (cutoff_time clock d.kind) excluded).creditBytes).sum ∧
      (clean_category fs rb clock d excluded stats).1.deleted_count =
        ((walk_file_attempts fs d.roots).map fun p =>
          (delete_file_delta fs p (cutoff_time clock d.kind) excluded).creditCount).sum ∧
      (clean_category fs rb clock d excluded stats).1.failed =
        ((walk_file_attempts fs d.roots).flatMap fun p =>
          (delete_file_delta fs p (cutoff_time clock d.kind) excluded).fails) ∧
      ((walk_file_attempts fs d.roots).Nodup →
        ((clean_category fs rb clock d excluded stats).1.failed.map
          CleanupError.path).Nodup)) ∧
    (∀ (fs : Fs) (p : String) (cutoff : Option Int) (excluded : List String),
      ((delete_file_delta fs p cutoff excluded).credit ≠ none →
        fs.remove_file p = none ∧
        (delete_file_delta fs p cutoff excluded).calls = [⟨.file, p, none⟩] ∧
        (delete_file_delta fs p cutoff excluded).fails = []) ∧
      ((delete_file_delta fs p cutoff excluded).fails ≠ [] →
        (delete_file_delta fs p cutoff excluded).credit = none ∧
        (delete_file_delta fs p cutoff excluded).fails.length = 1)) := by
  refine ⟨?_, ?_, ?_, ?_, ?_, ?_⟩
  · intro fs clock d incl
    rw [clean_included_paths_spec]
    refine ⟨rfl, rfl, rfl, ?_⟩
    exact flatMap_fails_nodup (dedupByKey_nodup incl []) _
      (fun p => included_delta_fails_len fs d (cutoff_time clock d.kind) p)
      (fun p => included_delta_fail_path fs d (cutoff_time clock d.kind) p)
  · intro fs d cutoff p
    exact ⟨included_delta_credit_success fs d cutoff p,
      included_delta_fail_no_credit fs d cutoff p⟩
  · intro fs sysDrive paths
    rw [clean_large_items_sync_spec]
    refine ⟨rfl, rfl, rfl, ?_⟩
    exact flatMap_fails_nodup (dedupByKey_nodup paths []) _
      (fun p => large_delta_fails_len fs (system_drive_mount sysDrive) p)
      (fun p => large_delta_fail_path fs (system_drive_mount sysDrive) p)
  · intro fs root p
    exact ⟨large_delta_credit_success fs root p, large_delta_fail_no_credit fs root p⟩
  · intro fs rb clock d excluded stats h1 h2
    rw [clean_category_walk_spec fs rb clock d excluded stats h1 h2]
    refine ⟨rfl, rfl, rfl, ?_⟩
    intro hA
    exact flatMap_fails_nodup hA _
      (fun p => delete_delta_fails_len fs p (cutoff_time clock d.kind) excluded)
      (fun p => delete_delta_fail_path fs p (cutoff_time clock d.kind) excluded)
  · intro fs p cutoff excluded
    exact ⟨delete_delta_credit_success fs p cutoff excluded,
      delete_delta_fail_no_credit fs p cutoff excluded⟩

/-- Witness for C2 at a concrete walk-and-delete clean: one file removes
successfully, one fails with "denied"; the counters credit only the
success and the failure list holds exactly the failing path. -/
theorem C2_cleanup_result_accounting_witness :
    (clean_category fsC2w rbUnused clockZero dC2w [] none).1.deleted_bytes =
      ((walk_file_attempts fsC2w dC2w.roots).map fun p =>
        (delete_file_delta fsC2w p (cutoff_time clockZero dC2w.kind) []).creditBytes).sum ∧
    (clean_category fsC2w rbUnused clockZero dC2w [] none).1.failed =
      ((walk_file_attempts fsC2w dC2w.roots).flatMap fun p =>
        (delete_file_delta fsC2w p (cutoff_time clockZero dC2w.kind) []).fails) ∧
    ((clean_category fsC2w rbUnused clockZero dC2w [] none).1.failed.map
      CleanupError.path).Nodup ∧
    ((delete_file_delta fsC2w "c:\\t\\b.txt" (cutoff_time clockZero dC2w.kind) []).credit =
      none ∧
     (delete_file_delta fsC2w "c:\\t\\b.txt" (cutoff_time clockZero dC2w.kind) []).fails.length
       = 1) ∧
    fsC2w.remove_file "c:\\t\\a.txt" = none := by
  have h := C2_cleanup_result_accounting
  have h5 := h.2.2.2.2.1 fsC2w rbUnused clockZero dC2w [] none (by decide) (by decide)
  refine ⟨h5.1, h5.2.2.1, h5.2.2.2 (by decide), ?_, ?_⟩
  · exact (h.2.2.2.2.2 fsC2w "c:\\t\\b.txt" (cutoff_time clockZero dC2w.kind) []).2
      (by decide)
  · exact ((h.2.2.2.2.2 fsC2w "c:\\t\\a.txt" (cutoff_time clockZero dC2w.kind) []).1
      (by decide)).1

/-- Counterexample to C2 as stated: in a walk-and-delete clean, the
empty-directory pass attempts `remove_dir` on a queued directory, the call
fails ("directory locked"), yet the CleanupResult's failure list is empty —
an attempted-but-failed path that appears nowhere in the failure list. -/
theorem C2_cleanup_result_accounting_cx :
    (clean_category fsC2cx rbUnused clockZero dC2cx [] none).1.failed = [] ∧
    (⟨.dir, "c:\\t\\locked", some "directory locked"⟩ : RemoveCall) ∈
      (clean_category fsC2cx rbUnused clockZero dC2cx [] none).2 := by
  constructor
  · decide
  · decide

/-- C8: fast-clear all-or-nothing accounting — for a category flagged for
fast clear, a clean with no exclusions dispatches to
`clean_category_fast_dirs`; if every existing root's removal succeeds, the
reported totals are the caller-supplied stats (zero when absent) with no
failures; if any existing root's removal fails, the totals are zero while
each failing root is recorded as a per-root failure; and a removal call is
issued on every existing root regardless (so other roots may really have
been removed even when zero is reported). -/
theorem C8_fast_clear_accounting (fs : Fs) (rb : RecycleBinEnv) (clock : Clock)
    (d : CategoryDef) (stats : Option CategoryStats)
    (hfc : should_fast_clear d = true) :
    clean_category fs rb clock d [] stats = clean_category_fast_dirs fs d stats ∧
    ((∀ r ∈ existing_roots fs d.roots, fast_dir_outcome fs r = none) →
      (clean_category_fast_dirs fs d stats).1 =
        ⟨(match stats with | some v => v.size_bytes | none => 0),
         (match stats with | some v => v.file_count | none => 0), []⟩) ∧
    ((∃ r ∈ existing_roots fs d.roots, fast_dir_outcome fs r ≠ none) →
      (clean_category_fast_dirs fs d stats).1.deleted_bytes = 0 ∧
      (clean_category_fast_dirs fs d stats).1.deleted_count = 0 ∧
      (∀ r ∈ existing_roots fs d.roots, ∀ msg, fast_dir_outcome fs r = some msg →
        (⟨r, msg⟩ : CleanupError) ∈ (clean_category_fast_dirs fs d stats).1.failed)) ∧
    (clean_category_fast_dirs fs d stats).2 =
      (existing_roots fs d.roots).map
        (fun r =>
          (⟨if fs.is_file r then .file else .dirAll, r, fast_dir_outcome fs r⟩ :
            RemoveCall)) := by
  have hfc2 := hfc
  simp only [should_fast_clear, Bool.and_eq_true, Bool.or_eq_true, beq_iff_eq] at hfc2
  have hnr : (d.id == "recycle_bin") = false := by
    rcases hfc2.1 with h | h <;> simp [h]
  refine ⟨?_, ?_, ?_, ?_⟩
  · simp [clean_category, hnr, hfc]
  · intro hall
    rw [clean_category_fast_dirs_spec]
    have hAll : (existing_roots fs d.roots).all
        (fun r => (fast_dir_outcome fs r).isNone) = true := by
      rw [List.all_eq_true]
      intro r hr
      simp [hall r hr]
    have hnil : (existing_roots fs d.roots).filterMap
        (fun r => (fast_dir_outcome fs r).map (fun msg => (⟨r, msg⟩ : CleanupError))) = [] := by
      rw [List.filterMap_eq_nil_iff]
      intro r hr
      simp [hall r hr]
    cases stats with
    | none => simp [hAll, hnil]
    | some v => simp [hAll, hnil]
  · intro hfail
    rw [clean_category_fast_dirs_spec]
    have hAll : (existing_roots fs d.roots).all
        (fun r => (fast_dir_outcome fs r).isNone) = false := by
      rcases hfail with ⟨r, hr, hout⟩
      rw [← Bool.not_eq_true, List.all_eq_true]
      intro hcon
      have := hcon r hr
      simp only [Option.isNone_iff_eq_none] at this
      exact hout this
    refine ⟨by simp [hAll], by simp [hAll], ?_⟩
    intro r hr msg hmsg
    simp only []
    exact List.mem_filterMap.2 ⟨r, hr, by simp [hmsg]⟩
  · rw [clean_category_fast_dirs_spec]

/-- Witness for C8: two existing roots; in one filesystem both removals
succeed and the caller stats (99 bytes, 7 files) are reported; in another
the second root fails with "busy", totals drop to zero, the failure is
recorded, and removal calls were still issued on both roots. -/
theorem C8_fast_clear_accounting_witness :
    clean_category fsC8 rbUnused clockZero dC8 [] (some ⟨99, 7⟩) =
      clean_category_fast_dirs fsC8 dC8 (some ⟨99, 7⟩) ∧
    (clean_category_fast_dirs fsC8ok dC8 (some ⟨99, 7⟩)).1 = ⟨99, 7, []⟩ ∧
    (clean_category_fast_dirs fsC8 dC8 (some ⟨99, 7⟩)).1.deleted_bytes = 0 ∧
    (clean_category_fast_dirs fsC8 dC8 (some ⟨99, 7⟩)).1.deleted_count = 0 ∧
    (⟨"c:\\sc2", "busy"⟩ : CleanupError) ∈
      (clean_category_fast_dirs fsC8 dC8 (some ⟨99, 7⟩)).1.failed ∧
    (clean_category_fast_dirs fsC8 dC8 (some ⟨99, 7⟩)).2 =
      (existing_roots fsC8 dC8.roots).map
        (fun r =>
          (⟨if fsC8.is_file r then .file else .dirAll, r, fast_dir_outcome fsC8 r⟩ :
            RemoveCall)) := by
  have h1 := C8_fast_clear_accounting fsC8 rbUnused clockZero dC8 (some ⟨99, 7⟩) (by decide)
  have h2 := C8_fast_clear_accounting fsC8ok rbUnused clockZero dC8 (some ⟨99, 7⟩) (by decide)
  have hfail := h1.2.2.1 ⟨"c:\\sc2", by decide, by decide⟩
  exact ⟨h1.1, h2.2.1 (by decide), hfail.1, hfail.2.1,
    hfail.2.2 "c:\\sc2" (by decide) "busy" (by decide), h1.2.2.2⟩

/-- C9 (amended): recycle-bin shortcut — when the recycle-bin category is
cleaned with no exclusions supplied, the platform trash capability is used
(no walk, no removal calls): the reported counts come from querying the
bin just before emptying (zero if the query fails), and an emptying
failure is surfaced as the single per-category failure `$Recycle.Bin` with
zero totals, never as a fallback to walk-and-delete.  Amendment: the
original claim omits the no-exclusions condition; with a non-empty
exclusion set the code walks `$Recycle.Bin` instead (see the
counterexample). -/
theorem C9_recycle_bin_shortcut (fs : Fs) (rb : RecycleBinEnv) (clock : Clock)
    (d : CategoryDef) (stats : Option CategoryStats) (h : d.id = "recycle_bin") :
    clean_category fs rb clock d [] stats = (clean_recycle_bin_fast rb, []) ∧
    (∀ e, rb.empty_bin = .error e →
      clean_recycle_bin_fast rb = ⟨0, 0, [⟨"$Recycle.Bin", e⟩]⟩) ∧
    (rb.empty_bin = .ok () →
      clean_recycle_bin_fast rb =
        ⟨(recycle_bin_stats_or_zero rb).1, (recycle_bin_stats_or_zero rb).2, []⟩) := by
  refine ⟨clean_category_recycle fs rb clock d stats h, ?_, ?_⟩
  · intro e he
    simp [clean_recycle_bin_fast, he]
  · intro he
    simp [clean_recycle_bin_fast, he]

/-- Witness for C9: with a healthy capability reporting 123 bytes and 4
items, cleaning the recycle-bin category with no exclusions reports
exactly those totals through the capability, with an empty trace. -/
theorem C9_recycle_bin_shortcut_witness :
    clean_category fsEmpty rbC9 clockZero dC9 [] none = (clean_recycle_bin_fast rbC9, []) ∧
    clean_recycle_bin_fast rbC9 =
      ⟨(recycle_bin_stats_or_zero rbC9).1, (recycle_bin_stats_or_zero rbC9).2, []⟩ := by
  have h := C9_recycle_bin_shortcut fsEmpty rbC9 clockZero dC9 none rfl
  exact ⟨h.1, h.2.2 rfl⟩

/-- Counterexample to C9 as stated: cleaning the recycle-bin category with
a non-empty exclusion set does not use the trash capability — the code
falls through to walk-and-delete, so an emptying failure that the
capability would report never appears. -/
theorem C9_recycle_bin_shortcut_cx :
    clean_category fsEmpty rbC9cx clockZero dC9 ["x"] none ≠
      (clean_recycle_bin_fast rbC9cx, []) ∧
    clean_category fsEmpty rbC9cx clockZero dC9 ["x"] none = (⟨0, 0, []⟩, []) ∧
    clean_recycle_bin_fast rbC9cx = ⟨0, 0, [⟨"$Recycle.Bin", "boom"⟩]⟩ := by
  refine ⟨by decide, by decide, by decide⟩

/-! ### Exclusion lemmas -/

lemma delete_delta_call_path (fs : Fs) (p : String) (cutoff : Option Int)
    (excluded : List String) :
    ∀ c ∈ (delete_file_delta fs p cutoff excluded).calls, c.path = p := by
  rcases delete_file_delta_cases fs p cutoff excluded with
    ⟨_, h⟩ | ⟨_, _, _, h⟩ | ⟨_, _, _, _, h⟩ | ⟨_, _, _, _, _, _, h⟩ |
    ⟨_, _, _, _, _, h⟩ <;>
  · rw [h]
    intro c hc
    simp at hc
    try simp [hc]

lemma delete_delta_call_not_excluded (fs : Fs) (p : String) (cutoff : Option Int)
    (excluded : List String) :
    ∀ c ∈ (delete_file_delta fs p cutoff excluded).calls,
      normalize_path_str p ∉ excluded := by
  rcases delete_file_delta_cases fs p cutoff excluded with
    ⟨_, h⟩ | ⟨hx, _, _, h⟩ | ⟨hx, _, _, _, h⟩ | ⟨hx, _, _, _, _, _, h⟩ |
    ⟨hx, _, _, _, _, h⟩ <;>
  · rw [h]
    intro c hc
    simp at hc
    try assumption

/-- C5 (amended): exclusion semantics — no excluded path is ever deleted by
the per-file deletion pass (every `file`-kind removal call of
`clean_category` has a key outside the exclusion set); and two requests
whose per-category exclusion sets agree produce identical results, so an
empty exclusion list behaves exactly like omitting the entry (same
shortcuts included).  Amendment: a path in the exclusion set that names a
directory may still be removed by the empty-directory pass — the
counterexample shows the claim as stated fails for such a path. -/
theorem C5_exclusion_semantics :
    (∀ (fs : Fs) (rb : RecycleBinEnv) (clock : Clock) (d : CategoryDef)
      (excluded : List String) (stats : Option CategoryStats),
      ∀ c ∈ (clean_category fs rb clock d excluded stats).2,
        c.kind = .file → normalize_path_str c.path ∉ excluded) ∧
    (∀ (fs : Fs) (rb : RecycleBinEnv) (clock : Clock) (cats : List CategoryDef)
      (ids : List String) (incl : List (String × List String))
      (cstats : List (String × CategoryStats)) (ea eb : List (String × List String)),
      (∀ s : String, ((lookupBy ea s).map normalize_exclusions).getD [] =
        ((lookupBy eb s).map normalize_exclusions).getD []) →
      clean_categories_sync fs rb clock cats ⟨ids, ea, incl, cstats⟩ =
        clean_categories_sync fs rb clock cats ⟨ids, eb, incl, cstats⟩) ∧
    (∀ (fs : Fs) (rb : RecycleBinEnv) (clock : Clock) (cats : List CategoryDef)
      (ids : List String) (incl : List (String × List String))
      (cstats : List (String × CategoryStats)) (i : String),
      clean_categories_sync fs rb clock cats ⟨ids, [(i, [])], incl, cstats⟩ =
        clean_categories_sync fs rb clock cats ⟨ids, [], incl, cstats⟩) := by
  have hmain : ∀ (fs : Fs) (rb : RecycleBinEnv) (clock : Clock) (d : CategoryDef)
      (excluded : List String) (stats : Option CategoryStats),
      ∀ c ∈ (clean_category fs rb clock d excluded stats).2,
        c.kind = .file → normalize_path_str c.path ∉ excluded := by
    intro fs rb clock d excluded stats c hc hk
    cases h1 : (d.id == "recycle_bin" && excluded.isEmpty) with
    | true =>
      have h1c := h1
      rw [Bool.and_eq_true] at h1c
      have hempty : excluded = [] := List.isEmpty_iff.1 h1c.2
      simp [hempty]
    | false =>
      cases h2 : (excluded.isEmpty && should_fast_clear d) with
      | true =>
        have h2c := h2
        rw [Bool.and_eq_true] at h2c
        have hempty : excluded = [] := List.isEmpty_iff.1 h2c.1
        simp [hempty]
      | false =>
        rw [clean_category_walk_spec fs rb clock d excluded stats h1 h2] at hc
        rcases List.mem_append.1 hc with hc | hc
        · rcases List.mem_flatMap.1 hc with ⟨q, _, hcall⟩
          have hpath := delete_delta_call_path fs q (cutoff_time clock d.kind) excluded c hcall
          rw [hpath]
          exact delete_delta_call_not_excluded fs q (cutoff_time clock d.kind) excluded c hcall
        · exfalso
          rcases hpass : (d.cleanup_dirs && ! (collect_dirs fs d.cleanup_dirs d.roots).isEmpty)
            with _ | _
          · rw [hpass] at hc
            simp at hc
          · rw [hpass] at hc
            simp only [if_true] at hc
            rcases List.mem_map.1 hc with ⟨dr, _, hdr⟩
            rw [← hdr] at hk
            simp at hk
  refine ⟨hmain, ?_, ?_⟩
  · intro fs rb clock cats ids incl cstats ea eb hagree
    rw [clean_categories_sync_spec, clean_categories_sync_spec]
    have hper : ∀ d : CategoryDef,
        per_category_clean fs rb clock ⟨ids, ea, incl, cstats⟩ d =
          per_category_clean fs rb clock ⟨ids, eb, incl, cstats⟩ d := by
      intro d
      simp only [per_category_clean]
      rw [hagree d.id]
    simp only [hper]
  · intro fs rb clock cats ids incl cstats i
    rw [clean_categories_sync_spec, clean_categories_sync_spec]
    have hper : ∀ d : CategoryDef,
        per_category_clean fs rb clock ⟨ids, [(i, [])], incl, cstats⟩ d =
          per_category_clean fs rb clock ⟨ids, [], incl, cstats⟩ d := by
      intro d
      simp only [per_category_clean]
      have : ((lookupBy [(i, [])] d.id).map normalize_exclusions).getD [] =
          ((lookupBy ([] : List (String × List String)) d.id).map normalize_exclusions).getD
            [] := by
        by_cases h : (i == d.id) = true <;> simp [lookupBy, h, normalize_exclusions]
      rw [this]
    simp only [hper]

/-- Witness for C5: no file-kind removal call of a concrete clean touches
the exclusion set, and supplying `("temp_files", [])` as exclusions equals
omitting the entry. -/
theorem C5_exclusion_semantics_witness :
    (∀ c ∈ (clean_category fsC2w rbUnused clockZero dC2w
        [normalize_path_str "c:\\t\\a.txt"] none).2,
      c.kind = .file →
        normalize_path_str c.path ∉ [normalize_path_str "c:\\t\\a.txt"]) ∧
    clean_categories_sync fsC2w rbUnused clockZero [dC2w]
        ⟨["temp_files"], [("temp_files", [])], [], []⟩ =
      clean_categories_sync fsC2w rbUnused clockZero [dC2w]
        ⟨["temp_files"], [], [], []⟩ :=
  ⟨C5_exclusion_semantics.1 fsC2w rbUnused clockZero dC2w
      [normalize_path_str "c:\\t\\a.txt"] none,
   C5_exclusion_semantics.2.2 fsC2w rbUnused clockZero [dC2w] ["temp_files"] [] []
     "temp_files"⟩

/-- Counterexample to C5 as stated: the exclusion set contains the key of
`c:\t\cachedir`, a directory under the category root; the walk queues it
for the empty-directory pass, whose `remove_dir` succeeds — an excluded
path is deleted. -/
theorem C5_exclusion_semantics_cx :
    normalize_path_str "c:\\t\\cachedir" ∈ [normalize_path_str "c:\\t\\cachedir"] ∧
    (⟨.dir, "c:\\t\\cachedir", none⟩ : RemoveCall) ∈
      (clean_category fsC5 rbUnused clockZero dC5
        [normalize_path_str "c:\\t\\cachedir"] none).2 := by
  refine ⟨by decide, by decide⟩

/-! ### Include-list override -/

lemma included_delta_call_guards (fs : Fs) (d : CategoryDef) (cutoff : Option Int)
    (q : String) :
    ∀ c ∈ (included_path_delta fs d cutoff q).calls,
      is_within_roots fs d q = true ∧
      ∃ meta, fs.stat q = .ok meta ∧ meta.isDir = false ∧
        matches_cutoff meta cutoff = true := by
  intro c hc
  rcases included_path_delta_cases fs d cutoff q with
    ⟨_, h⟩ | ⟨_, _, _, h⟩ | ⟨_, _, _, _, h⟩ | ⟨_, _, _, _, _, h⟩ |
    ⟨hw, meta, err, hs, hd, hm, _, h⟩ | ⟨hw, meta, hs, hd, hm, _, h⟩
  · rw [h] at hc; simp at hc
  · rw [h] at hc; simp at hc
  · rw [h] at hc; simp at hc
  · rw [h] at hc; simp at hc
  · exact ⟨hw, meta, hs, hd, hm⟩
  · exact ⟨hw, meta, hs, hd, hm⟩

/-- C6: include-list override — when a category's `includedPaths` entry is
non-empty, the category is cleaned through `clean_included_paths` on
exactly that list, an expression independent of the request's `ids` set;
every removal call issued there targets a listed path that passed the
root-containment check and the category's time filter; and a category with
an empty or absent entry whose id is not in `ids` contributes nothing at
all. -/
theorem C6_include_list_override (fs : Fs) (rb : RecycleBinEnv) (clock : Clock)
    (request : CleanRequest) (d : CategoryDef) :
    ((lookupBy request.included_paths d.id).getD [] ≠ [] →
      clean_categories_sync fs rb clock [d] request =
        clean_included_paths fs clock d
          ((lookupBy request.included_paths d.id).getD [])) ∧
    (∀ c ∈ (clean_included_paths fs clock d
        ((lookupBy request.included_paths d.id).getD [])).2,
      c.path ∈ (lookupBy request.included_paths d.id).getD [] ∧
      is_within_roots fs d c.path = true ∧
      ∃ meta, fs.stat c.path = .ok meta ∧ meta.isDir = false ∧
        matches_cutoff meta (cutoff_time clock d.kind) = true) ∧
    ((lookupBy request.included_paths d.id).getD [] = [] →
      request.ids.contains d.id = false →
      clean_categories_sync fs rb clock [d] request = (⟨0, 0, []⟩, [])) := by
  refine ⟨?_, ?_, ?_⟩
  · intro hne
    rw [clean_categories_sync_singleton]
    have hne2 : ((lookupBy request.included_paths d.id).getD []).isEmpty = false :=
      Bool.eq_false_iff.2 (fun h => hne (List.isEmpty_iff.1 h))
    simp [per_category_clean, hne2]
  · intro c hc
    rcases clean_included_calls_origin fs clock d
      ((lookupBy request.included_paths d.id).getD []) hc with ⟨q, hq, hcall⟩
    have hpath := included_delta_call_path fs d (cutoff_time clock d.kind) q c hcall
    have hguards := included_delta_call_guards fs d (cutoff_time clock d.kind) q c hcall
    rw [hpath]
    exact ⟨dedupByKey_subset _ _ hq, hguards.1, hguards.2⟩
  · intro hempty hid
    rw [clean_categories_sync_singleton]
    have hid2 : d.id ∉ request.ids := by
      intro hmem
      rw [(contains_iff request.ids d.id).2 hmem] at hid
      cases hid
    simp [per_category_clean, hempty, hid2]

/-- Witness for C6: a request selecting no ids at all still cleans the
listed file of `temp_files` through its include list, while the same
category with no include entry and an unselected id contributes nothing. -/
theorem C6_include_list_override_witness :
    clean_categories_sync fsC6 rbUnused clockZero [dC6] reqC6 =
      clean_included_paths fsC6 clockZero dC6 ["c:\\t\\a.txt"] ∧
    clean_categories_sync fsC6 rbUnused clockZero [dC6] reqC6b = (⟨0, 0, []⟩, []) := by
  have h1 := C6_include_list_override fsC6 rbUnused clockZero reqC6 dC6
  have h2 := C6_include_list_override fsC6 rbUnused clockZero reqC6b dC6
  exact ⟨h1.1 (by decide), h2.2.2 (by decide) (by decide)⟩

/-! ### Scope-safety lemmas -/

lemma isPrefixOf_self (l : List Char) : l.isPrefixOf l = true := by
  induction l with
  | nil => rfl
  | cons a t ih => simp [List.isPrefixOf, ih]

lemma is_within_root_key (fs : Fs) (root : String) {p q : String}
    (h : normalize_path_str p = normalize_path_str q) :
    is_within_root fs root p = is_within_root fs root q := by
  simp only [is_within_root, h]

lemma path_eq_key (root : String) {p q : String}
    (h : normalize_path_str p = normalize_path_str q) :
    path_eq_ignore_case p root = path_eq_ignore_case q root := by
  simp only [path_eq_ignore_case, h]

lemma endsWithSep_mount (sysDrive : String) :
    endsWithSep (normalize_path_str (system_drive_mount sysDrive)) = true := by
  have hdata : (normalize_path_str (system_drive_mount sysDrive)).data =
      (sysDrive.data.map (fun c => if c = '/' then '\\' else c.toLower)) ++ ['\\'] := by
    show ((sysDrive ++ "\\").data.map fun c => if c = '/' then '\\' else c.toLower) = _
    have : (sysDrive ++ "\\").data = sysDrive.data ++ ['\\'] := rfl
    rw [this, List.map_append]
    rfl
  simp [endsWithSep, hdata, List.getLast?_concat]

lemma pathEq_implies_within (fs : Fs) (sysDrive : String) {p : String}
    (h : path_eq_ignore_case p (system_drive_mount sysDrive) = true) :
    is_within_root fs (system_drive_mount sysDrive) p = true := by
  have hkey : normalize_path_str p = normalize_path_str (system_drive_mount sysDrive) := by
    simpa [path_eq_ignore_case, beq_iff_eq] using h
  simp only [is_within_root, hkey]
  cases fs.is_file (system_drive_mount sysDrive) with
  | true => simp
  | false =>
    simp only [Bool.false_eq_true, if_false, endsWithSep_mount, if_true]
    have : strStartsWith (normalize_path_str (system_drive_mount sysDrive))
        (normalize_path_str (system_drive_mount sysDrive)) = true := by
      simp [strStartsWith, isPrefixOf_self]
    simp [this]

lemma root_within_roots (fs : Fs) (d : CategoryDef) {r : String} (hr : r ∈ d.roots) :
    is_within_roots fs d r = true := by
  simp only [is_within_roots, List.any_eq_true]
  refine ⟨r, hr, ?_⟩
  cases fs.is_file r with
  | true => simp
  | false => simp

lemma walk_entry_within_roots (fs : Fs) (d : CategoryDef) {root q : String}
    (hr : root ∈ d.roots) (hfile : fs.is_file root = false)
    (hw : walk_entry_within root q = true) : is_within_roots fs d q = true := by
  simp only [walk_entry_within] at hw
  simp only [is_within_roots, List.any_eq_true]
  exact ⟨root, hr, by simp [hfile]; simpa using hw⟩

lemma walk_file_attempts_within (fs : Fs) (d : CategoryDef) (hW : WalkScoped fs) :
    ∀ q ∈ walk_file_attempts fs d.roots, is_within_roots fs d q = true := by
  intro q hq
  rcases List.mem_flatMap.1 hq with ⟨root, hroot, hmem⟩
  by_cases hex : fs.path_exists root = true
  · by_cases hfile : fs.is_file root = true
    · simp only [hex, hfile, Bool.not_true, Bool.false_eq_true, if_false, if_true,
        List.mem_singleton] at hmem
      exact hmem ▸ root_within_roots fs d hroot
    · have hfile2 : fs.is_file root = false := Bool.eq_false_iff.2 hfile
      simp only [hex, hfile2, Bool.not_true, Bool.false_eq_true, if_false,
        List.mem_map] at hmem
      rcases hmem with ⟨e, he, hpe⟩
      exact hpe ▸ walk_entry_within_roots fs d hroot hfile2
        (hW root e (List.mem_filter.1 he).1)
  · have hex2 : fs.path_exists root = false := Bool.eq_false_iff.2 hex
    simp [hex2] at hmem

lemma collect_dirs_within (fs : Fs) (d : CategoryDef) (cd : Bool) (hW : WalkScoped fs) :
    ∀ q ∈ collect_dirs fs cd d.roots, is_within_roots fs d q = true := by
  intro q hq
  simp only [collect_dirs] at hq
  cases cd with
  | false => simp at hq
  | true =>
    simp only [if_true] at hq
    rcases List.mem_flatMap.1 hq with ⟨root, hroot, hmem⟩
    by_cases hex : fs.path_exists root = true
    · by_cases hfile : fs.is_file root = true
      · simp [hex, hfile] at hmem
      · have hfile2 : fs.is_file root = false := Bool.eq_false_iff.2 hfile
        simp only [hex, hfile2, Bool.not_true, Bool.false_eq_true, if_false,
          List.mem_append, List.mem_map, List.mem_singleton] at hmem
        rcases hmem with ⟨e, he, hpe⟩ | hmem
        · exact hpe ▸ walk_entry_within_roots fs d hroot hfile2
            (hW root e (List.mem_filter.1 he).1)
        · exact hmem ▸ root_within_roots fs d hroot
    · have hex2 : fs.path_exists root = false := Bool.eq_false_iff.2 hex
      simp [hex2] at hmem

lemma clean_category_trace_within (fs : Fs) (rb : RecycleBinEnv) (clock : Clock)
    (d : CategoryDef) (excluded : List String) (stats : Option CategoryStats)
    (hW : WalkScoped fs) :
    ∀ c ∈ (clean_category fs rb clock d excluded stats).2,
      is_within_roots fs d c.path = true := by
  intro c hc
  cases h1 : (d.id == "recycle_bin" && excluded.isEmpty) with
  | true =>
    unfold clean_category at hc
    rw [h1] at hc
    simp at hc
  | false =>
    cases h2 : (excluded.isEmpty && should_fast_clear d) with
    | true =>
      unfold clean_category at hc
      rw [h1] at hc
      simp only [Bool.false_eq_true, if_false] at hc
      rw [h2] at hc
      simp only [if_true] at hc
      rw [clean_category_fast_dirs_spec] at hc
      simp only [List.mem_map] at hc
      rcases hc with ⟨r, hr, hcall⟩
      have : c.path = r := by rw [← hcall]
      rw [this]
      exact root_within_roots fs d (List.mem_filter.1 hr).1
    | false =>
      rw [clean_category_walk_spec fs rb clock d excluded stats h1 h2] at hc
      rcases List.mem_append.1 hc with hc | hc
      · rcases List.mem_flatMap.1 hc with ⟨q, hq, hcall⟩
        have hpath := delete_delta_call_path fs q (cutoff_time clock d.kind) excluded c hcall
        rw [hpath]
        exact walk_file_attempts_within fs d hW q hq
      · rcases hpass : (d.cleanup_dirs && ! (collect_dirs fs d.cleanup_dirs d.roots).isEmpty)
          with _ | _
        · rw [hpass] at hc
          simp at hc
        · rw [hpass] at hc
          simp only [if_true, List.mem_map] at hc
          rcases hc with ⟨dr, hdr, hcall⟩
          have : c.path = dr := by rw [← hcall]
          rw [this]
          exact collect_dirs_within fs d d.cleanup_dirs hW dr
            ((mem_sortDirsDesc dr _).1 hdr)

lemma clean_included_trace_within (fs : Fs) (clock : Clock) (d : CategoryDef)
    (incl : List String) :
    ∀ c ∈ (clean_included_paths fs clock d incl).2,
      is_within_roots fs d c.path = true := by
  intro c hc
  rcases clean_included_calls_origin fs clock d incl hc with ⟨q, _, hcall⟩
  have hpath := included_delta_call_path fs d (cutoff_time clock d.kind) q c hcall
  rw [hpath]
  exact (included_delta_call_guards fs d (cutoff_time clock d.kind) q c hcall).1

lemma large_delta_call_guards (fs : Fs) (root : String) (q : String) :
    ∀ c ∈ (large_item_delta fs root q).calls,
      c.path = q ∧ is_within_root fs root q = true ∧
        path_eq_ignore_case q root = false := by
  intro c hc
  rcases large_item_delta_cases fs root q with
    ⟨_, h⟩ | ⟨_, _, h⟩ | ⟨_, _, _, _, h⟩ | ⟨hw, he, _, _, _, _, _, h⟩ |
    ⟨hw, he, _, _, _, _, h⟩ | ⟨hw, he, _, _, _, _, _, h⟩ | ⟨hw, he, _, _, _, _, h⟩
  · rw [h] at hc; simp at hc
  · rw [h] at hc; simp at hc
  · rw [h] at hc; simp at hc
  · rw [h] at hc
    simp only [List.mem_singleton] at hc
    exact ⟨by rw [hc], hw, he⟩
  · rw [h] at hc
    simp only [List.mem_singleton] at hc
    exact ⟨by rw [hc], hw, he⟩
  · rw [h] at hc
    simp only [List.mem_singleton] at hc
    exact ⟨by rw [hc], hw, he⟩
  · rw [h] at hc
    simp only [List.mem_singleton] at hc
    exact ⟨by rw [hc], hw, he⟩

lemma large_delta_scope_shape (fs : Fs) (root : String) {q : String}
    (h : is_within_root fs root q = false) :
    large_item_delta fs root q = ⟨none, [⟨q, "Path is outside scan scope."⟩], []⟩ := by
  simp [large_item_delta, h]

lemma large_delta_root_shape (fs : Fs) (root : String) {q : String}
    (hw : is_within_root fs root q = true) (he : path_eq_ignore_case q root = true) :
    large_item_delta fs root q = ⟨none, [⟨q, "Refusing to delete drive root."⟩], []⟩ := by
  simp [large_item_delta, hw, he]

lemma clean_large_calls_origin (fs : Fs) (sysDrive : String) (paths : List String)
    {c : RemoveCall} (hc : c ∈ (clean_large_items_sync fs sysDrive paths).2) :
    ∃ q ∈ dedupByKey paths [],
      c ∈ (large_item_delta fs (system_drive_mount sysDrive) q).calls := by
  rw [clean_large_items_sync_spec] at hc
  exact List.mem_flatMap.1 hc

/-- C1: scope safety — the ad-hoc cleaner issues removal calls only on
paths within the system volume root and never on the root itself; an input
path outside the root is rejected with a per-path failure and no removal
call ever targets its key; the volume root itself is rejected with the
dedicated drive-root failure and never removed.  `clean_category` (all
strategies) and `clean_included_paths` issue removal calls only on paths
within the category's declared roots, and hence so does
`clean_categories_sync` (given walkdir's contract that walking a root
yields only entries within it). -/
theorem C1_scope_safety :
    (∀ (fs : Fs) (sysDrive : String) (paths : List String),
      (∀ c ∈ (clean_large_items_sync fs sysDrive paths).2,
        is_within_root fs (system_drive_mount sysDrive) c.path = true ∧
        path_eq_ignore_case c.path (system_drive_mount sysDrive) = false) ∧
      (∀ p ∈ paths, is_within_root fs (system_drive_mount sysDrive) p = false →
        (∃ q, (⟨q, "Path is outside scan scope."⟩ : CleanupError) ∈
            (clean_large_items_sync fs sysDrive paths).1.failed ∧
          normalize_path_str q = normalize_path_str p) ∧
        (∀ c ∈ (clean_large_items_sync fs sysDrive paths).2,
          normalize_path_str c.path ≠ normalize_path_str p)) ∧
      (∀ p ∈ paths, path_eq_ignore_case p (system_drive_mount sysDrive) = true →
        (∃ q, (⟨q, "Refusing to delete drive root."⟩ : CleanupError) ∈
            (clean_large_items_sync fs sysDrive paths).1.failed ∧
          normalize_path_str q = normalize_path_str p) ∧
        (∀ c ∈ (clean_large_items_sync fs sysDrive paths).2,
          normalize_path_str c.path ≠ normalize_path_str p))) ∧
    (∀ (fs : Fs) (rb : RecycleBinEnv) (clock : Clock) (d : CategoryDef)
      (excluded : List String) (stats : Option CategoryStats), WalkScoped fs →
      ∀ c ∈ (clean_category fs rb clock d excluded stats).2,
        is_within_roots fs d c.path = true) ∧
    (∀ (fs : Fs) (clock : Clock) (d : CategoryDef) (incl : List String),
      ∀ c ∈ (clean_included_paths fs clock d incl).2,
        is_within_roots fs d c.path = true) ∧
    (∀ (fs : Fs) (rb : RecycleBinEnv) (clock : Clock) (cats : List CategoryDef)
      (request : CleanRequest), WalkScoped fs →
      ∀ c ∈ (clean_categories_sync fs rb clock cats request).2,
        ∃ d ∈ cats, is_within_roots fs d c.path = true) := by
  refine ⟨?_, ?_, clean_included_trace_within, ?_⟩
  · intro fs sysDrive paths
    refine ⟨?_, ?_, ?_⟩
    · intro c hc
      rcases clean_large_calls_origin fs sysDrive paths hc with ⟨q, _, hcall⟩
      rcases large_delta_call_guards fs (system_drive_mount sysDrive) q c hcall with
        ⟨hpath, hw, he⟩
      rw [hpath]
      exact ⟨hw, he⟩
    · intro p hp hw
      rcases dedupByKey_cover paths [] hp with hmem | ⟨q, hq, hkey⟩
      · simp at hmem
      · have hwq : is_within_root fs (system_drive_mount sysDrive) q = false := by
          rw [is_within_root_key fs (system_drive_mount sysDrive) hkey]
          exact hw
        constructor
        · refine ⟨q, ?_, hkey⟩
          rw [clean_large_items_sync_spec]
          exact List.mem_flatMap.2 ⟨q, hq,
            by rw [large_delta_scope_shape fs (system_drive_mount sysDrive) hwq]; simp⟩
        · intro c hc hkeyc
          rcases clean_large_calls_origin fs sysDrive paths hc with ⟨q2, _, hcall⟩
          rcases large_delta_call_guards fs (system_drive_mount sysDrive) q2 c hcall with
            ⟨hpath, hw2, _⟩
          rw [hpath] at hkeyc
          rw [is_within_root_key fs (system_drive_mount sysDrive) hkeyc, hw] at hw2
          cases hw2
    · intro p hp he
      rcases dedupByKey_cover paths [] hp with hmem | ⟨q, hq, hkey⟩
      · simp at hmem
      · have heq : path_eq_ignore_case q (system_drive_mount sysDrive) = true := by
          rw [path_eq_key (system_drive_mount sysDrive) hkey]
          exact he
        have hwq := pathEq_implies_within fs sysDrive heq
        constructor
        · refine ⟨q, ?_, hkey⟩
          rw [clean_large_items_sync_spec]
          exact List.mem_flatMap.2 ⟨q, hq,
            by rw [large_delta_root_shape fs (system_drive_mount sysDrive) hwq heq]; simp⟩
        · intro c hc hkeyc
          rcases clean_large_calls_origin fs sysDrive paths hc with ⟨q2, _, hcall⟩
          rcases large_delta_call_guards fs (system_drive_mount sysDrive) q2 c hcall with
            ⟨hpath, _, he2⟩
          rw [hpath] at hkeyc
          rw [path_eq_key (system_drive_mount sysDrive) hkeyc, he] at he2
          cases he2
  · intro fs rb clock d excluded stats hW
    exact clean_category_trace_within fs rb clock d excluded stats hW
  · intro fs rb clock cats request hW c hc
    rw [clean_categories_sync_spec] at hc
    rcases List.mem_flatMap.1 hc with ⟨d, hd, hc2⟩
    refine ⟨d, hd, ?_⟩
    cases hinc : ((lookupBy request.included_paths d.id).getD []).isEmpty with
    | false =>
      simp only [per_category_clean, hinc, Bool.not_false, if_true] at hc2
      exact clean_included_trace_within fs clock d _ c hc2
    | true =>
      cases hid : (request.ids.contains d.id) with
      | false =>
        simp only [per_category_clean, hinc, hid, Bool.not_true, Bool.not_false,
          Bool.false_eq_true, if_false, if_true] at hc2
        simp at hc2
      | true =>
        simp only [per_category_clean, hinc, hid, Bool.not_true, Bool.false_eq_true,
          if_false] at hc2
        exact clean_category_trace_within fs rb clock d _ _ hW c hc2

lemma walkScopedC1 : WalkScoped fsC1 := by
  intro root e h
  dsimp only [fsC1] at h
  by_cases hr : (root == "c:\\t") = true
  · rw [if_pos hr] at h
    have hroot : root = "c:\\t" := by simpa [beq_iff_eq] using hr
    subst hroot
    rcases List.mem_cons.1 h with h | h
    · subst h; decide
    · rcases List.mem_cons.1 h with h | h
      · subst h; decide
      · simp at h
  · rw [if_neg hr] at h
    simp at h

/-- Witness for C1 at concrete inputs: the ad-hoc cleaner rejects an
out-of-drive path and the drive root itself, its removal calls all stay in
scope, and a walk-and-delete clean of `temp_files` touches only paths
within its root. -/
theorem C1_scope_safety_witness :
    (∀ c ∈ (clean_large_items_sync fsC1 "c:" ["d:\\evil", "C:/", "c:\\t\\a.txt"]).2,
      is_within_root fsC1 (system_drive_mount "c:") c.path = true ∧
      path_eq_ignore_case c.path (system_drive_mount "c:") = false) ∧
    (∃ q, (⟨q, "Path is outside scan scope."⟩ : CleanupError) ∈
        (clean_large_items_sync fsC1 "c:" ["d:\\evil", "C:/", "c:\\t\\a.txt"]).1.failed ∧
      normalize_path_str q = normalize_path_str "d:\\evil") ∧
    (∃ q, (⟨q, "Refusing to delete drive root."⟩ : CleanupError) ∈
        (clean_large_items_sync fsC1 "c:" ["d:\\evil", "C:/", "c:\\t\\a.txt"]).1.failed ∧
      normalize_path_str q = normalize_path_str "C:/") ∧
    (∀ c ∈ (clean_category fsC1 rbUnused clockZero dC1 [] none).2,
      is_within_roots fsC1 dC1 c.path = true) := by
  have h := C1_scope_safety
  have hlarge := h.1 fsC1 "c:" ["d:\\evil", "C:/", "c:\\t\\a.txt"]
  refine ⟨hlarge.1, ?_, ?_, ?_⟩
  · exact (hlarge.2.1 "d:\\evil" (by decide) (by decide)).1
  · exact (hlarge.2.2 "C:/" (by decide) (by decide)).1
  · exact h.2.1 fsC1 rbUnused clockZero dC1 [] none walkScopedC1

/-! ### Listing-limit characterisation -/

lemma list_scan_full (limit : Nat) (ts : List (List CleanupItem))
    (items : List CleanupItem) (h : limit ≤ items.length) :
    (list_scan limit ts items).1 = items := by
  cases ts with
  | nil => rfl
  | cons t ts2 => simp [list_scan, h]

lemma list_walk_entries_eq_scan (cutoff : Option Int) (limit : Nat) :
    ∀ (entries : List FsEntry) (items : List CleanupItem),
    list_walk_entries cutoff limit entries items =
      list_scan limit (entries.map (entry_token_items cutoff)) items := by
  intro entries
  induction entries with
  | nil => intro items; rfl
  | cons e rest ih =>
    intro items
    by_cases hl : limit ≤ items.length
    · simp [list_walk_entries, list_scan, hl]
    · simp only [list_walk_entries, list_scan, hl, if_false, List.map_cons]
      cases hf : e.isFileType with
      | false => simp [entry_token_items, hf, ih]
      | true =>
        cases hm : e.metadata with
        | error err => simp [entry_token_items, hf, hm, ih]
        | ok meta =>
          cases hc : matches_cutoff meta cutoff with
          | true => simp [entry_token_items, hf, hm, hc, ih]
          | false => simp [entry_token_items, hf, hm, hc, ih]

lemma list_scan_append_aux (limit : Nat) (ts1 ts2 : List (List CleanupItem))
    (items : List CleanupItem) :
    list_scan limit (ts1 ++ ts2) items =
      ((list_scan limit ts2 (list_scan limit ts1 items).1).1,
       (list_scan limit ts1 items).2 ||
         (list_scan limit ts2 (list_scan limit ts1 items).1).2) := by
  induction ts1 generalizing items with
  | nil => simp [list_scan]
  | cons t ts ih =>
    by_cases hl : limit ≤ items.length
    · simp only [List.cons_append, list_scan, hl, if_true]
      rw [list_scan_full limit ts2 items hl]
      cases ts2 with
      | nil => simp [list_scan]
      | cons u us => simp [list_scan, hl]
    · simp only [List.cons_append, list_scan, hl, if_false]
      exact ih (items ++ t)


lemma list_roots_eq_scan (fs : Fs) (cutoff : Option Int) (limit : Nat) :
    ∀ (roots : List String) (items : List CleanupItem) (hasMore : Bool),
    list_roots fs cutoff limit roots items hasMore =
      ((list_scan limit (list_tokens fs cutoff roots) items).1,
       hasMore || (list_scan limit (list_tokens fs cutoff roots) items).2) := by
  intro roots
  induction roots with
  | nil => intro items hasMore; simp [list_roots, list_tokens, list_scan]
  | cons root rest ih =>
    intro items hasMore
    by_cases hl : limit ≤ items.length
    · have htok : ∃ t ts, list_tokens fs cutoff (root :: rest) = t :: ts := by
        simp only [list_tokens, List.flatMap_cons]
        cases hex : fs.path_exists root with
        | false => exact ⟨[], _, rfl⟩
        | true =>
          cases hfile : fs.is_file root with
          | true => simp only [Bool.not_true, Bool.false_eq_true, if_false, if_true]
                    exact ⟨_, _, rfl⟩
          | false => simp only [Bool.not_true, Bool.false_eq_true, if_false]
                     exact ⟨[], _, rfl⟩
      rcases htok with ⟨t, ts, htok⟩
      rw [htok]
      simp [list_roots, list_scan, hl]
    · cases hex : fs.path_exists root with
      | false =>
        simp only [list_roots, hex, Bool.not_false, if_true, hl, if_false, ih,
          list_tokens, List.flatMap_cons]
        simp only [Bool.not_false, if_true, List.singleton_append, list_scan, hl, if_false,
          List.append_nil]
        rfl
      | true =>
        cases hfile : fs.is_file root with
        | true =>
          simp only [list_roots, hex, hfile, Bool.not_true, Bool.false_eq_true, if_false,
            if_true, hl, ih, list_tokens, List.flatMap_cons]
          simp only [Bool.not_true, Bool.false_eq_true, if_false, if_true,
            List.singleton_append, list_scan, hl]
          have hitems : (match fs.stat root with
              | .ok meta => if matches_cutoff meta cutoff then items ++ [to_item root meta]
                  else items
              | .error _ => items) = items ++ root_file_items fs cutoff root := by
            cases hs : fs.stat root with
            | error err => simp [root_file_items, hs]
            | ok meta =>
              cases hm : matches_cutoff meta cutoff with
              | true => simp [root_file_items, hs, hm]
              | false => simp [root_file_items, hs, hm]
          rw [hitems]
          rfl
        | false =>
          simp only [list_roots, hex, hfile, Bool.not_true, Bool.not_false,
            Bool.false_eq_true, if_false, if_true, hl, ih,
            list_walk_entries_eq_scan, list_tokens, List.flatMap_cons]
          simp only [Bool.not_true, Bool.not_false, Bool.false_eq_true, if_false, if_true,
            List.append_eq, List.cons_append, List.nil_append, list_scan, hl,
            List.append_nil]
          rw [list_scan_append_aux]
          simp [Bool.or_assoc]

lemma root_file_items_len (fs : Fs) (cutoff : Option Int) (root : String) :
    (root_file_items fs cutoff root).length ≤ 1 := by
  unfold root_file_items
  cases hs : fs.stat root with
  | error err => simp
  | ok meta => cases hm : matches_cutoff meta cutoff <;> simp [hm]

lemma entry_token_items_len (cutoff : Option Int) (e : FsEntry) :
    (entry_token_items cutoff e).length ≤ 1 := by
  unfold entry_token_items
  cases hf : e.isFileType with
  | false => simp
  | true =>
    cases hm : e.metadata with
    | error err => simp
    | ok meta => cases hc : matches_cutoff meta cutoff <;> simp [hc]

lemma list_tokens_small (fs : Fs) (cutoff : Option Int) (roots : List String) :
    ∀ t ∈ list_tokens fs cutoff roots, t.length ≤ 1 := by
  intro t ht
  rcases List.mem_flatMap.1 ht with ⟨root, _, hmem⟩
  by_cases hex : fs.path_exists root = true
  · by_cases hfile : fs.is_file root = true
    · simp only [hex, hfile, Bool.not_true, Bool.false_eq_true, if_false, if_true,
        List.mem_singleton] at hmem
      exact hmem ▸ root_file_items_len fs cutoff root
    · have hfile2 : fs.is_file root = false := Bool.eq_false_iff.2 hfile
      simp only [hex, hfile2, Bool.not_true, Bool.false_eq_true, if_false,
        List.cons_append, List.nil_append, List.mem_cons, List.mem_map] at hmem
      rcases hmem with hmem | ⟨e, _, hme⟩
      · simp [hmem]
      · exact hme ▸ entry_token_items_len cutoff e
  · have hex2 : fs.path_exists root = false := Bool.eq_false_iff.2 hex
    simp only [hex2, Bool.not_false, if_true, List.mem_singleton] at hmem
    simp [hmem]

lemma list_scan_items (limit : Nat) :
    ∀ (tokens : List (List CleanupItem)), (∀ t ∈ tokens, t.length ≤ 1) →
    ∀ (acc : List CleanupItem),
    (list_scan limit tokens acc).1 = acc ++ tokens.flatten.take (limit - acc.length) := by
  intro tokens
  induction tokens with
  | nil => intro _ acc; simp [list_scan]
  | cons t ts ih =>
    intro h1 acc
    by_cases hl : limit ≤ acc.length
    · have hz : limit - acc.length = 0 := Nat.sub_eq_zero_of_le hl
      simp [list_scan, hl, hz]
    · simp only [list_scan, hl, if_false, List.flatten_cons]
      rw [ih (fun u hu => h1 u (List.mem_cons_of_mem _ hu)) (acc ++ t)]
      have htle : t.length ≤ limit - acc.length := by
        have := h1 t (List.mem_cons_self _ _)
        omega
      rw [List.take_append_eq_append_take, List.take_of_length_le htle]
      have harith : limit - (acc ++ t).length = limit - acc.length - t.length := by
        rw [List.length_append]
        omega
      rw [harith, List.append_assoc]

lemma list_scan_more (limit : Nat) :
    ∀ (tokens : List (List CleanupItem)) (acc : List CleanupItem),
    ((list_scan limit tokens acc).2 = true ↔
      tokens ≠ [] ∧ limit ≤ (acc ++ tokens.dropLast.flatten).length) := by
  intro tokens
  induction tokens with
  | nil => intro acc; simp [list_scan]
  | cons t ts ih =>
    intro acc
    by_cases hl : limit ≤ acc.length
    · simp only [list_scan, hl, if_true]
      constructor
      · intro _
        refine ⟨by simp, ?_⟩
        have hle : acc.length ≤ (acc ++ (t :: ts).dropLast.flatten).length := by
          simp [List.length_append]
        omega
      · intro _
        trivial
    · simp only [list_scan, hl, if_false]
      rw [ih (acc ++ t)]
      cases ts with
      | nil => simp [hl]
      | cons u us =>
        rw [show (t :: u :: us).dropLast = t :: (u :: us).dropLast from rfl]
        simp only [ne_eq, List.cons_ne_nil, not_false_eq_true, true_and,
          List.flatten_cons, List.append_assoc]

/-- C10: listing limit and has-more — `list_category_items_for` returns
exactly the first `limit` items of the full traversal (root-list order,
then per-root walk order, as witnessed by the checkpoint list), so never
more than `limit` items; and `has_more` is true exactly when the
traversal has at least one checkpoint and the items of all checkpoints
before the last already reach the limit — i.e. the limit is reached while
a checkpoint remains unvisited — and is false when the traversal completes
without exceeding the limit. -/
theorem C10_listing_limit (fs : Fs) (clock : Clock) (d : CategoryDef) (limit : Nat) :
    (list_category_items_for fs clock d limit).items =
      (list_tokens fs (cutoff_time clock d.kind) d.roots).flatten.take limit ∧
    (list_category_items_for fs clock d limit).items.length ≤ limit ∧
    ((list_category_items_for fs clock d limit).has_more = true ↔
      list_tokens fs (cutoff_time clock d.kind) d.roots ≠ [] ∧
      limit ≤
        ((list_tokens fs (cutoff_time clock d.kind) d.roots).dropLast.flatten).length) := by
  have heq : list_category_items_for fs clock d limit =
      ⟨(list_scan limit (list_tokens fs (cutoff_time clock d.kind) d.roots) []).1,
       (list_scan limit (list_tokens fs (cutoff_time clock d.kind) d.roots) []).2⟩ := by
    simp only [list_category_items_for]
    rw [list_roots_eq_scan]
    simp
  rw [heq]
  have hitems := list_scan_items limit
    (list_tokens fs (cutoff_time clock d.kind) d.roots)
    (list_tokens_small fs (cutoff_time clock d.kind) d.roots) []
  refine ⟨?_, ?_, ?_⟩
  · rw [hitems]
    simp
  · rw [hitems]
    simp only [List.nil_append, List.length_nil, Nat.sub_zero]
    rw [List.length_take]
    exact min_le_left _ _
  · rw [list_scan_more]
    simp

end GoldCleaner
